import Mathlib

/-
Verification of the BlockStore component of a chained-BFT consensus core
(block_store.rs) against its natural-language specification.

The data model (blocks, quorum certificates, executed outputs) and the
BlockStore operations (commit, rebuild, execute_and_insert_block,
insert_single_quorum_cert, insert_timeout_certificate, build_block_tree,
prune_tree, verify_and_get_parent) are embedded shallowly below.  Hash
values are Nat, payloads are lists, the state computer and the persistent
storage are explicit collaborators.  Effects on the storage collaborator
are recorded as an event trace so that ordering contracts (persist before
in-memory mutation) can be stated and proved.
-/

set_option maxHeartbeats 1000000

namespace LibraBlockStore

abbrev HashValue := Nat

abbrev ValidatorSet := List Nat

abbrev BlockPayload := List Nat

abbrev TransactionData := Nat

/-- Executor ExecutedTrees: summarized by its transaction-accumulator root
hash and the number of accumulator leaves. -/
structure ExecutedTrees where
  accumulator_root_hash : HashValue
  num_leaves : Nat
  deriving DecidableEq, Repr, Inhabited

/-- ExecutedTrees.version from the executor: num_leaves - 1 when there is at
least one leaf, otherwise None. -/
def ExecutedTrees.version (t : ExecutedTrees) : Option Nat :=
  if t.num_leaves = 0 then none else some (t.num_leaves - 1)

/-- ExecutedTrees.state_id from the executor: the accumulator root hash. -/
def ExecutedTrees.state_id (t : ExecutedTrees) : HashValue :=
  t.accumulator_root_hash

/-- Executor ProcessedVMOutput: per-transaction data, the executed trees
after the block, and the optional next validator set. -/
structure ProcessedVMOutput where
  transaction_data : List TransactionData
  executed_trees : ExecutedTrees
  validators : Option ValidatorSet
  deriving DecidableEq, Repr, Inhabited

/-- ProcessedVMOutput.accu_root: root hash of the transaction accumulator. -/
def ProcessedVMOutput.accu_root (o : ProcessedVMOutput) : HashValue :=
  o.executed_trees.state_id

/-- ProcessedVMOutput.version: version of the executed trees. -/
def ProcessedVMOutput.version (o : ProcessedVMOutput) : Option Nat :=
  o.executed_trees.version

/-- Executor StateComputeResult, reduced to the executed-state summary used
by the block store. -/
structure StateComputeResult where
  state_id : HashValue
  version : Nat
  validators : Option ValidatorSet
  deriving DecidableEq, Repr

/-- StateComputeResult.has_reconfiguration: the executed state carries a
pending validator set. -/
def StateComputeResult.has_reconfiguration (r : StateComputeResult) : Bool :=
  r.validators.isSome

/-- ProcessedVMOutput.state_compute_result from the executor. -/
def ProcessedVMOutput.state_compute_result (o : ProcessedVMOutput) : StateComputeResult :=
  { state_id := o.accu_root
    version := o.version.getD 0
    validators := o.validators }

/-- Modelled from the spec: consensus-types Block (not under src).  Opaque
payload, parent link, round, timestamp; genesis blocks are distinguished. -/
structure Block where
  id : HashValue
  epoch : Nat
  round : Nat
  timestamp_usecs : Nat
  parent_id : HashValue
  payload : Option BlockPayload
  is_genesis_block : Bool
  deriving DecidableEq, Repr, Inhabited

/-- BlockInfo: identity plus execution summary of a block, as constructed by
BlockInfo::new(epoch, round, id, executed_state_id, version, timestamp_usecs,
next_validator_set). -/
structure BlockInfo where
  epoch : Nat
  round : Nat
  id : HashValue
  executed_state_id : HashValue
  version : Nat
  timestamp_usecs : Nat
  next_validator_set : Option ValidatorSet
  deriving DecidableEq, Repr, Inhabited

/-- LedgerInfo: a commit decision, LedgerInfo::new(commit_info,
consensus_data_hash). -/
structure LedgerInfo where
  commit_info : BlockInfo
  consensus_data_hash : HashValue
  deriving DecidableEq, Repr, Inhabited

/-- LedgerInfo.consensus_block_id: the id of the committed block recorded in
the commit info. -/
def LedgerInfo.consensus_block_id (li : LedgerInfo) : HashValue :=
  li.commit_info.id

/-- LedgerInfoWithSignatures, with the signature map abstracted away (it is
never inspected by the block store). -/
structure LedgerInfoWithSignatures where
  ledger_info : LedgerInfo
  deriving DecidableEq, Repr, Inhabited

/-- Modelled from the spec: consensus-types QuorumCert (not under src): a
certified block info plus an embedded ledger info. -/
structure QuorumCert where
  certified_block : BlockInfo
  ledger_info : LedgerInfoWithSignatures
  deriving DecidableEq, Repr, Inhabited

/-- QuorumCert.commit_info: the commit decision embedded in the ledger
info. -/
def QuorumCert.commit_info (qc : QuorumCert) : BlockInfo :=
  qc.ledger_info.ledger_info.commit_info

/-- TimeoutCertificate, reduced to its round (signatures are never inspected
by the block store). -/
structure TimeoutCertificate where
  round : Nat
  deriving DecidableEq, Repr, Inhabited

/-- Modelled from the spec: consensus-types ExecutedBlock (not under src): a
block together with the output of processing its payload through the VM. -/
structure ExecutedBlock where
  block : Block
  output : ProcessedVMOutput
  deriving DecidableEq, Repr, Inhabited

/-- ExecutedBlock.executed_trees. -/
def ExecutedBlock.executed_trees (eb : ExecutedBlock) : ExecutedTrees :=
  eb.output.executed_trees

/-- ExecutedBlock.compute_result. -/
def ExecutedBlock.compute_result (eb : ExecutedBlock) : StateComputeResult :=
  eb.output.state_compute_result

/-- ExecutedBlock.block_info: gen_block_info over the block identity and the
execution summary. -/
def ExecutedBlock.block_info (eb : ExecutedBlock) : BlockInfo :=
  { epoch := eb.block.epoch
    round := eb.block.round
    id := eb.block.id
    executed_state_id := eb.output.accu_root
    version := eb.output.version.getD 0
    timestamp_usecs := eb.block.timestamp_usecs
    next_validator_set := eb.output.validators }

/-- The StateComputer collaborator: the committed trees at startup and a
deterministic compute function (None models an execution failure). -/
structure StateComputer where
  committed_trees : ExecutedTrees
  compute : Block → ExecutedTrees → Option ProcessedVMOutput

/-- The PersistentStorage collaborator, reduced to whether each kind of save
call succeeds (save_tree is durable and atomic per call). -/
structure StorageEnv where
  save_tree_ok : Bool
  save_highest_timeout_cert_ok : Bool
  deriving DecidableEq, Repr

/-- Observable effects of a block-store operation, in the order they are
performed.  Storage saves record whether they succeeded. -/
inductive Event where
  | saveTree (ok : Bool) (blockIds : List HashValue) (qcIds : List HashValue)
  | saveHighestTimeoutCert (ok : Bool) (round : Nat)
  | treeInsertBlock (id : HashValue)
  | treeInsertQC (id : HashValue)
  | replaceTimeoutCert (round : Nat)
  | computeCall (id : HashValue)
  | stateComputerCommit (ids : List HashValue)
  | commitCall (li : LedgerInfo)
  | storagePrune (ids : List HashValue)
  | processPruned (newRootId : HashValue)
  deriving DecidableEq, Repr

/-- Recoverable errors returned by BlockStore operations (failure::Error in
the source, distinguished here by their ensure/bail sites). -/
inductive BSError where
  | blockNotFound
  | staleCommit
  | oldRound
  | missingParent
  | invalidRound
  | nonIncreasingTimestamp
  | reconfigurationPayload
  | executionError
  | saveTreeBlockFailed
  | saveTreeQuorumFailed
  | saveTimeoutCertFailed
  | qcMissingBlock
  | qcInconsistentBlockInfo
  | treeInsertFailed
  deriving DecidableEq, Repr

/-- Fatal aborts (assert/expect/unrecoverable in the source) during startup
or rebuild. -/
inductive FatalError where
  | rootVersionMismatch
  | rootStateMismatch
  | genesisOrphan
  | orphanMissingParent
  | rebuildExecutionFailed
  | certifiedStateDivergence
  | treeInsertFailed
  | qcInsertFailed
  deriving DecidableEq, Repr

/-- First-match association lookup used for the id-keyed maps of the tree. -/
def assocFind {α : Type} : List (HashValue × α) → HashValue → Option α
  | [], _ => none
  | p :: rest, k => if p.1 = k then some p.2 else assocFind rest k

/-- Modelled from the spec: the BlockTree state (consensus block_tree.rs is
not under src): the id-keyed block map, the certified-id-keyed QC map, the
root id, the highest-certificate trackers, the optional highest timeout
certificate and the bounded pruned-id window. -/
structure BlockTree where
  blocks : List (HashValue × ExecutedBlock)
  qcs : List (HashValue × QuorumCert)
  root_id : HashValue
  highest_quorum_cert : QuorumCert
  highest_ledger_info : QuorumCert
  highest_timeout_cert : Option TimeoutCertificate
  pruned_block_ids : List HashValue
  max_pruned_blocks_in_mem : Nat
  deriving DecidableEq, Repr

/-- BlockTree.get_block: lookup in the primary id-keyed map. -/
def BlockTree.get_block (t : BlockTree) (id : HashValue) : Option ExecutedBlock :=
  assocFind t.blocks id

/-- BlockTree.root: the block stored under the root id. -/
def BlockTree.root (t : BlockTree) : ExecutedBlock :=
  (t.get_block t.root_id).getD default

/-- Modelled from the spec: BlockTree::new seeds the map with the executed
root block, records the root QC under its certified id, and sets the highest
trackers and the optional highest timeout certificate. -/
def BlockTree.new (root_eb : ExecutedBlock) (root_qc root_li : QuorumCert)
    (max_pruned : Nat) (htc : Option TimeoutCertificate) : BlockTree :=
  { blocks := [(root_eb.block.id, root_eb)]
    qcs := [(root_qc.certified_block.id, root_qc)]
    root_id := root_eb.block.id
    highest_quorum_cert := root_qc
    highest_ledger_info := root_li
    highest_timeout_cert := htc
    pruned_block_ids := []
    max_pruned_blocks_in_mem := max_pruned }

/-- Modelled from the spec: BlockTree::insert_block returns the existing
block unchanged on a duplicate id, fails when the parent is absent, and
otherwise records the block in the primary map. -/
def BlockTree.insert_block (t : BlockTree) (eb : ExecutedBlock) :
    Except FatalError (ExecutedBlock × BlockTree) :=
  match t.get_block eb.block.id with
  | some existing => .ok (existing, t)
  | none =>
    match t.get_block eb.block.parent_id with
    | none => .error .orphanMissingParent
    | some _ => .ok (eb, { t with blocks := t.blocks ++ [(eb.block.id, eb)] })

/-- Modelled from the spec: BlockTree::insert_quorum_cert requires the
certified block to be present, records the QC under its certified id when no
QC is recorded there yet, bumps highest_quorum_cert on a strictly higher
certified round and highest_ledger_info on a strictly higher commit round. -/
def BlockTree.insert_quorum_cert (t : BlockTree) (qc : QuorumCert) :
    Except FatalError BlockTree :=
  match t.get_block qc.certified_block.id with
  | none => .error .qcInsertFailed
  | some _ =>
    let t1 :=
      if (assocFind t.qcs qc.certified_block.id).isSome then t
      else { t with qcs := t.qcs ++ [(qc.certified_block.id, qc)] }
    let t2 :=
      if t1.highest_quorum_cert.certified_block.round < qc.certified_block.round
      then { t1 with highest_quorum_cert := qc } else t1
    let t3 :=
      if t2.highest_ledger_info.commit_info.round < qc.commit_info.round
      then { t2 with highest_ledger_info := qc } else t2
    .ok t3

/-- Modelled from the spec: BlockTree::replace_timeout_cert is a no-op when
the incoming round is not strictly higher, else replaces. -/
def BlockTree.replace_timeout_cert (t : BlockTree) (tc : TimeoutCertificate) : BlockTree :=
  match t.highest_timeout_cert with
  | some cur =>
    if tc.round ≤ cur.round then t else { t with highest_timeout_cert := some tc }
  | none => { t with highest_timeout_cert := some tc }

/-- Fuelled parent walk behind path_from_root. -/
def BlockTree.pathTo (t : BlockTree) : Nat → HashValue → Option (List ExecutedBlock)
  | 0, _ => none
  | fuel + 1, id =>
    if id = t.root_id then some []
    else
      match t.get_block id with
      | none => none
      | some eb => (t.pathTo fuel eb.block.parent_id).map (fun p => p ++ [eb])

/-- Modelled from the spec: path_from_root returns the ordered list from the
first block after the root down to the target, an empty list on the root
itself, and None when the target does not reach the root. -/
def BlockTree.path_from_root (t : BlockTree) (id : HashValue) : Option (List ExecutedBlock) :=
  t.pathTo (t.blocks.length + 1) id

/-- Fuelled ancestor test: does the parent walk from id reach target before
leaving the tree. -/
def BlockTree.reaches (t : BlockTree) : Nat → HashValue → HashValue → Bool
  | 0, _, _ => false
  | fuel + 1, id, target =>
    if id = target then true
    else if id = t.root_id then false
    else
      match t.get_block id with
      | none => false
      | some eb => t.reaches fuel eb.block.parent_id target

/-- Modelled from the spec: find_blocks_to_prune returns the stored ids that
are not on the subtree of the prospective next root. -/
def BlockTree.find_blocks_to_prune (t : BlockTree) (next_root_id : HashValue) : List HashValue :=
  (t.blocks.map Prod.fst).filter fun k => !(t.reaches (t.blocks.length + 1) k next_root_id)

/-- Keep the most recent n entries of a FIFO list. -/
def listTakeLast {α : Type} (n : Nat) (l : List α) : List α :=
  l.drop (l.length - n)

/-- Modelled from the spec: process_pruned_blocks removes the given ids from
the primary map, appends them to the bounded pruned FIFO, moves the root to
the next root id and drops QCs certifying rounds below the new root round. -/
def BlockTree.process_pruned_blocks (t : BlockTree) (next_root_id : HashValue)
    (ids : List HashValue) : BlockTree :=
  let next_round := ((t.get_block next_root_id).map fun eb => eb.block.round).getD 0
  { t with
    blocks := t.blocks.filter fun p => !(decide (p.1 ∈ ids))
    qcs := t.qcs.filter fun p => !(decide (p.2.certified_block.round < next_round))
    root_id := next_root_id
    pruned_block_ids := listTakeLast t.max_pruned_blocks_in_mem (t.pruned_block_ids ++ ids) }

/-- Well-formedness of the primary map: every entry is keyed by the id of
the block it stores. -/
def BlockTree.WF (t : BlockTree) : Prop :=
  ∀ p ∈ t.blocks, p.2.block.id = p.1

/-- BlockStore: the concurrency envelope over the tree; the lock is
irrelevant to the sequential semantics embedded here. -/
structure BlockStore where
  inner : BlockTree
  deriving DecidableEq, Repr

/-- BlockReader::get_block. -/
def BlockStore.get_block (s : BlockStore) (block_id : HashValue) : Option ExecutedBlock :=
  s.inner.get_block block_id

/-- BlockReader::root. -/
def BlockStore.root (s : BlockStore) : ExecutedBlock :=
  s.inner.root

/-- BlockReader::path_from_root. -/
def BlockStore.path_from_root (s : BlockStore) (block_id : HashValue) :
    Option (List ExecutedBlock) :=
  s.inner.path_from_root block_id

/-- BlockReader::highest_timeout_cert. -/
def BlockStore.highest_timeout_cert (s : BlockStore) : Option TimeoutCertificate :=
  s.inner.highest_timeout_cert

/-- BlockReader::highest_ledger_info. -/
def BlockStore.highest_ledger_info (s : BlockStore) : QuorumCert :=
  s.inner.highest_ledger_info

/-- BlockStore::verify_and_get_parent: the root-round, parent-presence,
parent-round and timestamp checks, in source order. -/
def BlockStore.verify_and_get_parent (s : BlockStore) (b : Block) :
    Except BSError ExecutedBlock :=
  if b.round ≤ s.root.block.round then .error .oldRound
  else
    match s.get_block b.parent_id with
    | none => .error .missingParent
    | some parent =>
      if b.round ≤ parent.block.round then .error .invalidRound
      else if b.timestamp_usecs ≤ parent.block.timestamp_usecs then
        .error .nonIncreasingTimestamp
      else .ok parent

/-- BlockStore::execute_block: verify the parent; on a pending
reconfiguration of a non-root parent require an empty payload and synthesize
the output from the parent, otherwise run the state computer on the parent
trees. -/
def BlockStore.execute_block (s : BlockStore) (sc : StateComputer) (b : Block) :
    Except BSError ExecutedBlock × List Event :=
  match s.verify_and_get_parent b with
  | .error e => (.error e, [])
  | .ok parent_block =>
    if s.root ≠ parent_block ∧ parent_block.compute_result.has_reconfiguration then
      if (b.payload.filter fun p => !p.isEmpty).isSome then
        (.error .reconfigurationPayload, [])
      else
        (.ok (ExecutedBlock.mk b
          { transaction_data := []
            executed_trees := parent_block.output.executed_trees
            validators := parent_block.output.validators }), [])
    else
      match sc.compute b parent_block.executed_trees with
      | none => (.error .executionError, [Event.computeCall b.id])
      | some output => (.ok (ExecutedBlock.mk b output), [Event.computeCall b.id])

/-- BlockStore::execute_and_insert_block: return the existing block on a
duplicate id; otherwise execute, persist through save_tree, then insert into
the in-memory tree. -/
def BlockStore.execute_and_insert_block (s : BlockStore) (sc : StateComputer)
    (env : StorageEnv) (b : Block) :
    Except BSError ExecutedBlock × BlockStore × List Event :=
  match s.get_block b.id with
  | some existing_block => (.ok existing_block, s, [])
  | none =>
    match s.execute_block sc b with
    | (.error e, tr) => (.error e, s, tr)
    | (.ok executed_block, tr) =>
      if env.save_tree_ok then
        match s.inner.insert_block executed_block with
        | .error _ =>
          (.error .treeInsertFailed, s,
            tr ++ [Event.saveTree true [executed_block.block.id] []])
        | .ok (ret, t2) =>
          (.ok ret, ⟨t2⟩,
            tr ++ [Event.saveTree true [executed_block.block.id] [],
                   Event.treeInsertBlock executed_block.block.id])
      else
        (.error .saveTreeBlockFailed, s,
          tr ++ [Event.saveTree false [executed_block.block.id] []])

/-- BlockStore::insert_single_quorum_cert: require the certified block to be
present with a matching block info; persist the QC through save_tree, then
insert into the in-memory tree. -/
def BlockStore.insert_single_quorum_cert (s : BlockStore) (env : StorageEnv)
    (qc : QuorumCert) : Except BSError Unit × BlockStore × List Event :=
  match s.get_block qc.certified_block.id with
  | none => (.error .qcMissingBlock, s, [])
  | some executed_block =>
    if executed_block.block_info ≠ qc.certified_block then
      (.error .qcInconsistentBlockInfo, s, [])
    else if env.save_tree_ok then
      match s.inner.insert_quorum_cert qc with
      | .error _ =>
        (.error .treeInsertFailed, s, [Event.saveTree true [] [qc.certified_block.id]])
      | .ok t2 =>
        (.ok (), ⟨t2⟩,
          [Event.saveTree true [] [qc.certified_block.id],
           Event.treeInsertQC qc.certified_block.id])
    else
      (.error .saveTreeQuorumFailed, s, [Event.saveTree false [] [qc.certified_block.id]])

/-- BlockStore::insert_timeout_certificate: no-op unless strictly newer than
the current highest round (0 when none); persist through
save_highest_timeout_cert, then replace in memory. -/
def BlockStore.insert_timeout_certificate (s : BlockStore) (env : StorageEnv)
    (tc : TimeoutCertificate) : Except BSError Unit × BlockStore × List Event :=
  let cur_tc_round := (s.highest_timeout_cert.map TimeoutCertificate.round).getD 0
  if tc.round ≤ cur_tc_round then (.ok (), s, [])
  else if env.save_highest_timeout_cert_ok then
    (.ok (), ⟨s.inner.replace_timeout_cert tc⟩,
      [Event.saveHighestTimeoutCert true tc.round, Event.replaceTimeoutCert tc.round])
  else
    (.error .saveTimeoutCertFailed, s, [Event.saveHighestTimeoutCert false tc.round])

/-- BlockStore::prune_tree: find the ids to drop, best-effort prune them in
storage, then process the prune in memory. -/
def BlockStore.prune_tree (s : BlockStore) (next_root_id : HashValue) :
    BlockStore × List HashValue × List Event :=
  let ids := s.inner.find_blocks_to_prune next_root_id
  (⟨s.inner.process_pruned_blocks next_root_id ids⟩, ids,
    [Event.storagePrune ids, Event.processPruned next_root_id])

/-- BlockStore::commit: resolve the block named by the finality proof,
require its round to exceed the root round, commit the path from the root
through the state computer, then prune the tree to the committed block. -/
def BlockStore.commit (s : BlockStore) (finality_proof : LedgerInfoWithSignatures) :
    Except BSError (List ExecutedBlock) × BlockStore × List Event :=
  match s.get_block finality_proof.ledger_info.consensus_block_id with
  | none => (.error .blockNotFound, s, [])
  | some block_to_commit =>
    if block_to_commit.block.round ≤ s.root.block.round then (.error .staleCommit, s, [])
    else
      let blocks_to_commit :=
        (s.path_from_root finality_proof.ledger_info.consensus_block_id).getD []
      let pr := s.prune_tree block_to_commit.block.id
      (.ok blocks_to_commit, pr.1,
        Event.stateComputerCommit (blocks_to_commit.map fun eb => eb.block.id) :: pr.2.2)

/-- HashMap of orphan QCs keyed by certified id: a later QC for the same id
overwrites the earlier one. -/
def qcIndexInsert (m : List (HashValue × QuorumCert)) (qc : QuorumCert) :
    List (HashValue × QuorumCert) :=
  if (assocFind m qc.certified_block.id).isSome then
    m.map fun p => if p.1 = qc.certified_block.id then (p.1, qc) else p
  else m ++ [(qc.certified_block.id, qc)]

/-- Collect the orphan QCs into the certified-id index. -/
def qcIndex (qcs : List QuorumCert) : List (HashValue × QuorumCert) :=
  qcs.foldl qcIndexInsert []

/-- Per-orphan-block loop of build_block_tree: assert non-genesis, locate
the parent trees, re-execute, check any certified state against the fresh
output, insert. -/
def buildLoop (sc : StateComputer) (qi : List (HashValue × QuorumCert)) :
    BlockTree → List Block → Except FatalError BlockTree
  | t, [] => .ok t
  | t, b :: rest =>
    if b.is_genesis_block then .error .genesisOrphan
    else
      match t.get_block b.parent_id with
      | none => .error .orphanMissingParent
      | some parent =>
        match sc.compute b parent.executed_trees with
        | none => .error .rebuildExecutionFailed
        | some output =>
          match assocFind qi b.id with
          | some qc =>
            if qc.certified_block.executed_state_id ≠ output.accu_root then
              .error .certifiedStateDivergence
            else
              match t.insert_block (ExecutedBlock.mk b output) with
              | .error e => .error e
              | .ok (_, t2) => buildLoop sc qi t2 rest
          | none =>
            match t.insert_block (ExecutedBlock.mk b output) with
            | .error e => .error e
            | .ok (_, t2) => buildLoop sc qi t2 rest

/-- Final loop of build_block_tree: insert every orphan QC. -/
def insertQCs : BlockTree → List QuorumCert → Except FatalError BlockTree
  | t, [] => .ok t
  | t, qc :: rest =>
    match t.insert_quorum_cert qc with
    | .error e => .error e
    | .ok t2 => insertQCs t2 rest

/-- BlockStore::build_block_tree: assert the root QC against the committed
trees on version and state id, synthesize the executed root from the
committed trees, then insert the orphan blocks (re-executing each) and the
orphan QCs.  Fatal aborts are modelled as errors of type FatalError. -/
def build_block_tree (sc : StateComputer) (root : Block × QuorumCert × QuorumCert)
    (blocks : List Block) (quorum_certs : List QuorumCert)
    (highest_timeout_cert : Option TimeoutCertificate) (max_pruned : Nat) :
    Except FatalError BlockTree :=
  if root.2.1.certified_block.version ≠ sc.committed_trees.version.getD 0 then
    .error .rootVersionMismatch
  else if root.2.1.certified_block.executed_state_id ≠ sc.committed_trees.state_id then
    .error .rootStateMismatch
  else
    let root_output : ProcessedVMOutput :=
      { transaction_data := []
        executed_trees := sc.committed_trees
        validators := root.2.1.certified_block.next_validator_set }
    let tree := BlockTree.new (ExecutedBlock.mk root.1 root_output) root.2.1 root.2.2
        max_pruned highest_timeout_cert
    match buildLoop sc (qcIndex quorum_certs) tree blocks with
    | .error e => .error e
    | .ok t => insertQCs t ((qcIndex quorum_certs).map Prod.snd)

/-- BlockStore::rebuild: build a fresh tree from the arguments rolling over
the previous highest timeout certificate, best-effort prune the old ids from
storage, swap the tree in, and when the rebuilt highest ledger info commits
past the new root, invoke commit with it (a commit error is only warned). -/
def BlockStore.rebuild (s : BlockStore) (sc : StateComputer)
    (root : Block × QuorumCert × QuorumCert) (blocks : List Block)
    (quorum_certs : List QuorumCert) :
    Except FatalError (BlockStore × List Event) :=
  let prev_htc := s.highest_timeout_cert
  match build_block_tree sc root blocks quorum_certs prev_htc
      s.inner.max_pruned_blocks_in_mem with
  | .error e => .error e
  | .ok tree =>
    let to_remove := s.inner.blocks.map Prod.fst
    let s1 : BlockStore := ⟨tree⟩
    if s1.root.block.round < s1.highest_ledger_info.commit_info.round then
      let fp := s1.highest_ledger_info.ledger_info
      let c := s1.commit fp
      .ok (c.2.1, Event.storagePrune to_remove :: Event.commitCall fp.ledger_info :: c.2.2)
    else .ok (s1, [Event.storagePrune to_remove])

deriving instance DecidableEq for Except

/-- A deterministic state computer used by the concrete scenarios: every
compute succeeds and produces a fresh accumulator root derived from the
block id. -/
def sc0 : StateComputer :=
  { committed_trees := { accumulator_root_hash := 100, num_leaves := 1 }
    compute := fun b t =>
      some { transaction_data := []
             executed_trees :=
               { accumulator_root_hash := t.accumulator_root_hash + b.id + 1
                 num_leaves := t.num_leaves + 1 }
             validators := none } }

/-- A state computer whose compute always fails. -/
def scFail : StateComputer :=
  { committed_trees := { accumulator_root_hash := 100, num_leaves := 1 }
    compute := fun _ _ => none }

/-- Storage collaborator whose saves all succeed. -/
def envOK : StorageEnv :=
  { save_tree_ok := true, save_highest_timeout_cert_ok := true }

/-- Storage collaborator whose saves all fail. -/
def envFail : StorageEnv :=
  { save_tree_ok := false, save_highest_timeout_cert_ok := false }

/-- Genesis block of the concrete scenarios. -/
def blockG : Block :=
  { id := 0, epoch := 1, round := 0, timestamp_usecs := 0, parent_id := 0,
    payload := none, is_genesis_block := true }

/-- Executed genesis, carrying the committed trees of sc0. -/
def ebG : ExecutedBlock :=
  { block := blockG
    output := { transaction_data := []
                executed_trees := { accumulator_root_hash := 100, num_leaves := 1 }
                validators := none } }

/-- Root QC certifying the executed genesis. -/
def qcG : QuorumCert :=
  { certified_block := ebG.block_info
    ledger_info := { ledger_info := { commit_info := ebG.block_info, consensus_data_hash := 0 } } }

/-- Round-1 child of genesis. -/
def block1 : Block :=
  { id := 1, epoch := 1, round := 1, timestamp_usecs := 10, parent_id := 0,
    payload := some [5], is_genesis_block := false }

/-- Executed round-1 child, exactly as sc0 computes it from the genesis
trees. -/
def eb1 : ExecutedBlock :=
  { block := block1
    output := { transaction_data := []
                executed_trees := { accumulator_root_hash := 102, num_leaves := 2 }
                validators := none } }

/-- Store holding the genesis root and its round-1 child. -/
def store0 : BlockStore :=
  ⟨{ blocks := [(0, ebG), (1, eb1)]
     qcs := [(0, qcG)]
     root_id := 0
     highest_quorum_cert := qcG
     highest_ledger_info := qcG
     highest_timeout_cert := none
     pruned_block_ids := []
     max_pruned_blocks_in_mem := 10 }⟩

/-- Store holding only the genesis root. -/
def storeG : BlockStore :=
  ⟨{ blocks := [(0, ebG)]
     qcs := [(0, qcG)]
     root_id := 0
     highest_quorum_cert := qcG
     highest_ledger_info := qcG
     highest_timeout_cert := none
     pruned_block_ids := []
     max_pruned_blocks_in_mem := 10 }⟩

/-- Finality proof naming the round-1 child. -/
def fp1 : LedgerInfoWithSignatures :=
  { ledger_info := { commit_info := eb1.block_info, consensus_data_hash := 0 } }

/-- Round-2 block whose execution produced a pending validator set. -/
def blockR : Block :=
  { id := 2, epoch := 1, round := 2, timestamp_usecs := 20, parent_id := 0,
    payload := none, is_genesis_block := false }

/-- Executed reconfiguration block: its output carries a pending next
validator set. -/
def ebR : ExecutedBlock :=
  { block := blockR
    output := { transaction_data := []
                executed_trees := { accumulator_root_hash := 103, num_leaves := 3 }
                validators := some [7] } }

/-- Store holding the genesis root and the reconfiguration block. -/
def storeR : BlockStore :=
  ⟨{ blocks := [(0, ebG), (2, ebR)]
     qcs := [(0, qcG)]
     root_id := 0
     highest_quorum_cert := qcG
     highest_ledger_info := qcG
     highest_timeout_cert := none
     pruned_block_ids := []
     max_pruned_blocks_in_mem := 10 }⟩

/-- Non-empty-payload child of the reconfiguration block. -/
def blockBadPayload : Block :=
  { id := 3, epoch := 1, round := 3, timestamp_usecs := 30, parent_id := 2,
    payload := some [9], is_genesis_block := false }

/-- Empty-payload child of the reconfiguration block. -/
def blockEmptyChild : Block :=
  { id := 4, epoch := 1, round := 3, timestamp_usecs := 30, parent_id := 2,
    payload := none, is_genesis_block := false }

/-- Store holding only the genesis root and a round-3 highest timeout
certificate. -/
def storeTC : BlockStore :=
  ⟨{ blocks := [(0, ebG)]
     qcs := [(0, qcG)]
     root_id := 0
     highest_quorum_cert := qcG
     highest_ledger_info := qcG
     highest_timeout_cert := some { round := 3 }
     pruned_block_ids := []
     max_pruned_blocks_in_mem := 10 }⟩

/-- Quorum certificate correctly certifying the executed round-1 child. -/
def qc1 : QuorumCert :=
  { certified_block := eb1.block_info
    ledger_info := { ledger_info := { commit_info := ebG.block_info, consensus_data_hash := 0 } } }

/-- Block whose parent id is unknown to every concrete store. -/
def blockOrphan : Block :=
  { id := 9, epoch := 1, round := 5, timestamp_usecs := 50, parent_id := 77,
    payload := none, is_genesis_block := false }

/-- Round-5 root block used by the rebuild scenarios. -/
def rootBlock5 : Block :=
  { id := 50, epoch := 1, round := 5, timestamp_usecs := 500, parent_id := 49,
    payload := none, is_genesis_block := false }

/-- Block info of the round-5 root agreeing with the committed trees of sc0
(version 0, state id 100). -/
def rootInfo5 : BlockInfo :=
  { epoch := 1, round := 5, id := 50, executed_state_id := 100, version := 0,
    timestamp_usecs := 500, next_validator_set := none }

/-- Root QC certifying the round-5 root. -/
def rootQC5 : QuorumCert :=
  { certified_block := rootInfo5
    ledger_info := { ledger_info := { commit_info := rootInfo5, consensus_data_hash := 0 } } }

/-- Root ledger-info QC whose commit decision names a round-3 block, below
the round-5 root. -/
def rootLI3 : QuorumCert :=
  { certified_block := rootInfo5
    ledger_info := { ledger_info :=
      { commit_info := { epoch := 1, round := 3, id := 49, executed_state_id := 90,
                         version := 0, timestamp_usecs := 300, next_validator_set := none }
        consensus_data_hash := 0 } } }

/-- Round-6 child of the round-5 root. -/
def block60 : Block :=
  { id := 60, epoch := 1, round := 6, timestamp_usecs := 600, parent_id := 50,
    payload := none, is_genesis_block := false }

/-- Block info of the round-6 child as re-executed by sc0 from the committed
trees (accumulator root 161). -/
def info60 : BlockInfo :=
  { epoch := 1, round := 6, id := 60, executed_state_id := 161, version := 1,
    timestamp_usecs := 600, next_validator_set := none }

/-- Orphan QC certifying the round-6 child. -/
def qc60 : QuorumCert :=
  { certified_block := info60
    ledger_info := { ledger_info := { commit_info := info60, consensus_data_hash := 0 } } }

/-- Root ledger-info QC whose commit decision names the round-6 child. -/
def rootLI6 : QuorumCert :=
  { certified_block := rootInfo5
    ledger_info := { ledger_info := { commit_info := info60, consensus_data_hash := 0 } } }

/-- Executed round-6 child as sc0 re-executes it during rebuild. -/
def eb60 : ExecutedBlock :=
  { block := block60
    output := { transaction_data := []
                executed_trees := { accumulator_root_hash := 161, num_leaves := 2 }
                validators := none } }

/-- The tree produced by build_block_tree in the commit-recursing rebuild
scenario. -/
def treeW : BlockTree :=
  (build_block_tree sc0 (rootBlock5, rootQC5, rootLI6) [block60] [] none 10).toOption.getD
    (BlockTree.new ebG qcG qcG 0 none)

/-- The tree produced by build_block_tree in the startup-assertion witness
scenario (one orphan block with a matching orphan QC). -/
def tree8 : BlockTree :=
  (build_block_tree sc0 (rootBlock5, rootQC5, rootLI3) [block60] [qc60] none 10).toOption.getD
    (BlockTree.new ebG qcG qcG 0 none)

/-- Recognizer for save_tree events in a trace. -/
def Event.isSaveTree : Event → Bool
  | .saveTree _ _ _ => true
  | _ => false

/-- Recognizer for state-computer compute events in a trace. -/
def Event.isComputeCall : Event → Bool
  | .computeCall _ => true
  | _ => false

/- ------------------------------------------------------------------ -/
/- Helper lemmas on the association maps and the tree operations.      -/
/- ------------------------------------------------------------------ -/

theorem assocFind_mem {α : Type} {l : List (HashValue × α)} {k : HashValue} {v : α}
    (h : assocFind l k = some v) : (k, v) ∈ l := by
  induction l with
  | nil => simp [assocFind] at h
  | cons p rest ih =>
    simp only [assocFind] at h
    by_cases hk : p.1 = k
    · rw [if_pos hk] at h
      have hp : p = (k, v) := by
        cases p with
        | mk a b =>
          simp only at hk
          simp only [Option.some.injEq] at h
          simp [hk, h]
      rw [← hp]
      exact List.mem_cons_self _ _
    · rw [if_neg hk] at h
      exact List.mem_cons_of_mem _ (ih h)

theorem assocFind_append_left {α : Type} {l l2 : List (HashValue × α)} {k : HashValue}
    {v : α} (h : assocFind l k = some v) : assocFind (l ++ l2) k = some v := by
  induction l with
  | nil => simp [assocFind] at h
  | cons p rest ih =>
    rw [List.cons_append]
    simp only [assocFind] at h ⊢
    by_cases hk : p.1 = k
    · rwa [if_pos hk] at h ⊢
    · rw [if_neg hk] at h ⊢
      exact ih h

theorem assocFind_filter_not_removed {α : Type} {l : List (HashValue × α)}
    {ids : List HashValue} {k : HashValue} (hk : k ∉ ids) :
    assocFind (l.filter fun p => !(decide (p.1 ∈ ids))) k = assocFind l k := by
  induction l with
  | nil => rfl
  | cons p rest ih =>
    rw [List.filter_cons]
    by_cases hp : p.1 ∈ ids
    · have hcond : (!(decide (p.1 ∈ ids))) = false := by simp [hp]
      rw [hcond]
      simp only [Bool.false_eq_true, if_false]
      have hne : p.1 ≠ k := fun he => hk (he ▸ hp)
      simp only [assocFind, if_neg hne]
      exact ih
    · have hcond : (!(decide (p.1 ∈ ids))) = true := by simp [hp]
      rw [hcond]
      simp only [if_true]
      simp only [assocFind]
      by_cases hk2 : p.1 = k
      · rw [if_pos hk2, if_pos hk2]
      · rw [if_neg hk2, if_neg hk2]
        exact ih

theorem reaches_self {t : BlockTree} {fuel : Nat} {k : HashValue} (h : 0 < fuel) :
    t.reaches fuel k k = true := by
  cases fuel with
  | zero => omega
  | succ n => simp [BlockTree.reaches]

theorem not_mem_find_blocks_to_prune {t : BlockTree} {id : HashValue} :
    id ∉ t.find_blocks_to_prune id := by
  intro hmem
  unfold BlockTree.find_blocks_to_prune at hmem
  have h2 := (List.mem_filter.mp hmem).2
  rw [reaches_self (Nat.succ_pos _)] at h2
  simp at h2

theorem wf_lookup_id {t : BlockTree} (hwf : t.WF) {k : HashValue} {eb : ExecutedBlock}
    (h : t.get_block k = some eb) : eb.block.id = k :=
  hwf (k, eb) (assocFind_mem h)

/-- Core commit lemma: when the named block is present and its round exceeds
the root round, commit returns the path from the root and the pruned store
has the committed block as its root. -/
theorem commit_ok {s : BlockStore} {fp : LedgerInfoWithSignatures} {b : ExecutedBlock}
    (hwf : s.inner.WF)
    (hb : s.get_block fp.ledger_info.consensus_block_id = some b)
    (hr : s.root.block.round < b.block.round) :
    (s.commit fp).1 = .ok ((s.path_from_root fp.ledger_info.consensus_block_id).getD []) ∧
    (s.commit fp).2.1.root = b := by
  have hid : b.block.id = fp.ledger_info.consensus_block_id := wf_lookup_id hwf hb
  have hnot : ¬ (b.block.round ≤ s.root.block.round) := by omega
  unfold BlockStore.commit
  simp only [hb]
  rw [if_neg hnot]
  refine ⟨rfl, ?_⟩
  show (s.prune_tree b.block.id).1.root = b
  show (assocFind (s.inner.blocks.filter fun p =>
      !(decide (p.1 ∈ s.inner.find_blocks_to_prune b.block.id))) b.block.id).getD default = b
  rw [assocFind_filter_not_removed not_mem_find_blocks_to_prune]
  have hfind : assocFind s.inner.blocks b.block.id = some b := by
    rw [hid]; exact hb
  rw [hfind]
  rfl

theorem assocFind_append_right {α : Type} {l l2 : List (HashValue × α)} {k : HashValue}
    (h : assocFind l k = none) : assocFind (l ++ l2) k = assocFind l2 k := by
  induction l with
  | nil => rfl
  | cons p rest ih =>
    rw [List.cons_append]
    simp only [assocFind] at h ⊢
    by_cases hk : p.1 = k
    · rw [if_pos hk] at h
      exact absurd h (by simp)
    · rw [if_neg hk] at h ⊢
      exact ih h

theorem verify_ok_elim {s : BlockStore} {b : Block} {p : ExecutedBlock}
    (h : s.verify_and_get_parent b = .ok p) :
    s.root.block.round < b.round ∧ s.get_block b.parent_id = some p ∧
    p.block.round < b.round ∧ p.block.timestamp_usecs < b.timestamp_usecs := by
  unfold BlockStore.verify_and_get_parent at h
  split at h
  · exact absurd h (by simp)
  next h1 =>
    split at h
    · exact absurd h (by simp)
    next q hq =>
      split at h
      · exact absurd h (by simp)
      next h2 =>
        split at h
        · exact absurd h (by simp)
        next h3 =>
          simp only [Except.ok.injEq] at h
          subst h
          exact ⟨by omega, hq, by omega, by omega⟩

theorem execute_block_ok_elim {s : BlockStore} {sc : StateComputer} {b : Block}
    {eb : ExecutedBlock} (h : (s.execute_block sc b).1 = .ok eb) :
    eb.block = b ∧ ∃ p, s.verify_and_get_parent b = .ok p := by
  unfold BlockStore.execute_block at h
  split at h
  · exact absurd h (by simp)
  next p hv =>
    refine ⟨?_, p, hv⟩
    split at h
    · split at h
      · exact absurd h (by simp)
      · simp only [Except.ok.injEq] at h
        rw [← h]
    · split at h
      · exact absurd h (by simp)
      · simp only [Except.ok.injEq] at h
        rw [← h]

theorem execute_block_trace (s : BlockStore) (sc : StateComputer) (b : Block) :
    (s.execute_block sc b).2 = [] ∨ (s.execute_block sc b).2 = [Event.computeCall b.id] := by
  unfold BlockStore.execute_block
  split
  · exact Or.inl rfl
  · split
    · split
      · exact Or.inl rfl
      · exact Or.inl rfl
    · split
      · exact Or.inr rfl
      · exact Or.inr rfl

theorem execute_and_insert_ok_elim {s : BlockStore} {sc : StateComputer}
    {env : StorageEnv} {b : Block} {eb : ExecutedBlock}
    (hdup : s.get_block b.id = none)
    (hok : (s.execute_and_insert_block sc env b).1 = .ok eb) :
    env.save_tree_ok = true ∧ (s.execute_block sc b).1 = .ok eb ∧
    (s.execute_and_insert_block sc env b).2.1 =
      ⟨{ s.inner with blocks := s.inner.blocks ++ [(b.id, eb)] }⟩ ∧
    (s.execute_and_insert_block sc env b).2.2 =
      (s.execute_block sc b).2 ++
        [Event.saveTree true [b.id] [], Event.treeInsertBlock b.id] := by
  cases hx : s.execute_block sc b with
  | mk r tr =>
    cases r with
    | error e =>
      have hres : (s.execute_and_insert_block sc env b).1 = .error e := by
        unfold BlockStore.execute_and_insert_block
        simp only [hdup]
        rw [hx]
      rw [hres] at hok
      exact absurd hok (by simp)
    | ok eb0 =>
      have hblk : eb0.block = b := (execute_block_ok_elim (by rw [hx])).1
      obtain ⟨p, hver⟩ := (@execute_block_ok_elim s sc b eb0 (by rw [hx])).2
      have hpar : s.get_block b.parent_id = some p := (verify_ok_elim hver).2.1
      have hins : s.inner.insert_block eb0 =
          .ok (eb0, { s.inner with blocks := s.inner.blocks ++ [(b.id, eb0)] }) := by
        unfold BlockTree.insert_block
        have h1 : s.inner.get_block eb0.block.id = none := by rw [hblk]; exact hdup
        have h2 : s.inner.get_block eb0.block.parent_id = some p := by rw [hblk]; exact hpar
        rw [h1, h2, hblk]
      cases henv : env.save_tree_ok with
      | false =>
        have hres : (s.execute_and_insert_block sc env b).1 = .error .saveTreeBlockFailed := by
          unfold BlockStore.execute_and_insert_block
          simp only [hdup]
          rw [hx, henv]
          simp
        rw [hres] at hok
        exact absurd hok (by simp)
      | true =>
        have hres : s.execute_and_insert_block sc env b =
            (.ok eb0, ⟨{ s.inner with blocks := s.inner.blocks ++ [(b.id, eb0)] }⟩,
             tr ++ [Event.saveTree true [b.id] [], Event.treeInsertBlock b.id]) := by
          unfold BlockStore.execute_and_insert_block
          simp only [hdup]
          rw [hx, henv]
          simp only [if_true]
          rw [hins]
          simp only []
          rw [hblk]
        rw [hres] at hok
        have heb : eb0 = eb := by simpa using hok
        subst heb
        refine ⟨rfl, rfl, ?_, ?_⟩
        · rw [hres]
        · rw [hres]

theorem insert_quorum_cert_records {t : BlockTree} {qc : QuorumCert} {t2 : BlockTree}
    (h : t.insert_quorum_cert qc = .ok t2) :
    (assocFind t2.qcs qc.certified_block.id).isSome = true ∧
    t2.blocks = t.blocks ∧ t2.highest_timeout_cert = t.highest_timeout_cert := by
  unfold BlockTree.insert_quorum_cert at h
  split at h
  · exact absurd h (by simp)
  next eb hb =>
    simp only [Except.ok.injEq] at h
    subst h
    by_cases h1 : (assocFind t.qcs qc.certified_block.id).isSome
    · rw [if_pos h1]
      refine ⟨?_, ?_, ?_⟩ <;> split <;> split <;> simp [h1]
    · rw [if_neg h1]
      have habs : assocFind t.qcs qc.certified_block.id = none := by
        cases hx : assocFind t.qcs qc.certified_block.id with
        | none => rfl
        | some v => rw [hx] at h1; simp at h1
      have hfind : assocFind (t.qcs ++ [(qc.certified_block.id, qc)]) qc.certified_block.id =
          some qc := by
        rw [assocFind_append_right habs]
        simp [assocFind]
      refine ⟨?_, ?_, ?_⟩ <;> split <;> split <;> simp [hfind]

theorem insert_single_qc_ok_elim {s : BlockStore} {env : StorageEnv} {qc : QuorumCert}
    (hok : (s.insert_single_quorum_cert env qc).1 = .ok ()) :
    env.save_tree_ok = true ∧
    ∃ eb t3, s.get_block qc.certified_block.id = some eb ∧
      eb.block_info = qc.certified_block ∧
      s.inner.insert_quorum_cert qc = .ok t3 ∧
      s.insert_single_quorum_cert env qc =
        (.ok (), ⟨t3⟩, [Event.saveTree true [] [qc.certified_block.id],
                        Event.treeInsertQC qc.certified_block.id]) := by
  cases hb : s.get_block qc.certified_block.id with
  | none =>
    have hres : (s.insert_single_quorum_cert env qc).1 = .error .qcMissingBlock := by
      unfold BlockStore.insert_single_quorum_cert
      rw [hb]
    rw [hres] at hok
    exact absurd hok (by simp)
  | some eb =>
    by_cases hne : eb.block_info ≠ qc.certified_block
    · have hres : (s.insert_single_quorum_cert env qc).1 = .error .qcInconsistentBlockInfo := by
        unfold BlockStore.insert_single_quorum_cert
        simp only [hb]
        rw [if_pos hne]
      rw [hres] at hok
      exact absurd hok (by simp)
    · have heq : eb.block_info = qc.certified_block := not_not.mp hne
      have hb2 : s.inner.get_block qc.certified_block.id = some eb := hb
      have hex : ∃ t3, s.inner.insert_quorum_cert qc = .ok t3 := by
        unfold BlockTree.insert_quorum_cert
        rw [hb2]
        exact ⟨_, rfl⟩
      obtain ⟨t3, ht3⟩ := hex
      cases henv : env.save_tree_ok with
      | false =>
        have hres : (s.insert_single_quorum_cert env qc).1 = .error .saveTreeQuorumFailed := by
          unfold BlockStore.insert_single_quorum_cert
          simp only [hb]
          rw [if_neg hne, henv]
          simp
        rw [hres] at hok
        exact absurd hok (by simp)
      | true =>
        refine ⟨rfl, eb, t3, rfl, heq, ht3, ?_⟩
        unfold BlockStore.insert_single_quorum_cert
        simp only [hb]
        rw [if_neg hne, henv]
        simp only [if_true]
        rw [ht3]

/- ------------------------------------------------------------------ -/
/- Claim C1: the commit contract.                                      -/
/- ------------------------------------------------------------------ -/

/-- C1: commit fails when the block named by the finality proof is absent,
fails when its round does not exceed the current root round, and otherwise
returns the path from the root (empty when there is no path) and leaves the
committed block as the root of the tree. -/
theorem commit_contract (s : BlockStore) (fp : LedgerInfoWithSignatures)
    (hwf : s.inner.WF) :
    (s.get_block fp.ledger_info.consensus_block_id = none →
      (s.commit fp).1 = .error .blockNotFound ∧ (s.commit fp).2.1 = s) ∧
    (∀ b, s.get_block fp.ledger_info.consensus_block_id = some b →
      b.block.round ≤ s.root.block.round →
      (s.commit fp).1 = .error .staleCommit ∧ (s.commit fp).2.1 = s) ∧
    (∀ b, s.get_block fp.ledger_info.consensus_block_id = some b →
      s.root.block.round < b.block.round →
      (s.commit fp).1 =
        .ok ((s.path_from_root fp.ledger_info.consensus_block_id).getD []) ∧
      (s.commit fp).2.1.root = b) := by
  refine ⟨?_, ?_, ?_⟩
  · intro h
    unfold BlockStore.commit
    simp [h]
  · intro b hb hle
    unfold BlockStore.commit
    simp [hb, hle]
  · intro b hb hlt
    exact commit_ok hwf hb hlt

/-- Witness for the commit contract: committing the round-1 child of the
genesis in the concrete two-block store returns the one-block path and the
committed block becomes the root. -/
theorem commit_contract_witness :
    (store0.commit fp1).1 =
      .ok ((store0.path_from_root fp1.ledger_info.consensus_block_id).getD []) ∧
    (store0.commit fp1).2.1.root = eb1 :=
  (commit_contract store0 fp1 (by unfold BlockTree.WF; decide)).2.2 eb1 rfl (by decide)

/- ------------------------------------------------------------------ -/
/- Claims C9, C10: timeout certificates.                               -/
/- ------------------------------------------------------------------ -/

/-- C9: insert_timeout_certificate returns Ok as a no-op (no storage write,
no in-memory change) when the incoming round does not exceed the current
highest TC round; when strictly newer and the save succeeds, the save event
precedes the in-memory replacement in the trace and the highest TC round
afterwards is the incoming round. -/
theorem insert_timeout_certificate_contract (s : BlockStore) (env : StorageEnv)
    (tc : TimeoutCertificate) :
    (tc.round ≤ (s.highest_timeout_cert.map TimeoutCertificate.round).getD 0 →
      s.insert_timeout_certificate env tc = (.ok (), s, [])) ∧
    ((s.highest_timeout_cert.map TimeoutCertificate.round).getD 0 < tc.round →
      env.save_highest_timeout_cert_ok = true →
      (s.insert_timeout_certificate env tc).1 = .ok () ∧
      (s.insert_timeout_certificate env tc).2.2 =
        [Event.saveHighestTimeoutCert true tc.round, Event.replaceTimeoutCert tc.round] ∧
      ((s.insert_timeout_certificate env tc).2.1.highest_timeout_cert.map
        TimeoutCertificate.round) = some tc.round) := by
  constructor
  · intro hle
    unfold BlockStore.insert_timeout_certificate
    rw [if_pos hle]
  · intro hlt henv
    have hnot : ¬ tc.round ≤ (s.highest_timeout_cert.map TimeoutCertificate.round).getD 0 := by
      omega
    unfold BlockStore.insert_timeout_certificate
    rw [if_neg hnot, henv]
    simp only [if_pos rfl]
    refine ⟨rfl, rfl, ?_⟩
    show ((s.inner.replace_timeout_cert tc).highest_timeout_cert.map
      TimeoutCertificate.round) = some tc.round
    unfold BlockStore.highest_timeout_cert at hlt
    unfold BlockTree.replace_timeout_cert
    cases hcur : s.inner.highest_timeout_cert with
    | none => rfl
    | some cur =>
      rw [hcur] at hlt
      have hlt2 : cur.round < tc.round := by simpa using hlt
      have hc2 : ¬ tc.round ≤ cur.round := by omega
      simp [hc2]

/-- Witness for the timeout-certificate contract: in the concrete store with
a round-3 highest TC, a round-3 TC is silently ignored while a round-5 TC is
persisted, replaced, and reported. -/
theorem insert_timeout_certificate_contract_witness :
    storeTC.insert_timeout_certificate envOK { round := 3 } = (.ok (), storeTC, []) ∧
    (storeTC.insert_timeout_certificate envOK { round := 5 }).1 = .ok () ∧
    ((storeTC.insert_timeout_certificate envOK { round := 5 }).2.1.highest_timeout_cert.map
      TimeoutCertificate.round) = some 5 :=
  ⟨(insert_timeout_certificate_contract storeTC envOK { round := 3 }).1 (by decide),
   ((insert_timeout_certificate_contract storeTC envOK { round := 5 }).2 (by decide) rfl).1,
   ((insert_timeout_certificate_contract storeTC envOK { round := 5 }).2 (by decide) rfl).2.2⟩

/-- C10: with no stored timeout certificate the comparison round is 0: a
round-0 TC is accepted as Ok but neither persisted nor stored, while any TC
of round at least 1 is persisted and stored (when the save succeeds). -/
theorem insert_timeout_certificate_initial (s : BlockStore) (env : StorageEnv)
    (tc : TimeoutCertificate) (hnone : s.highest_timeout_cert = none) :
    (tc.round = 0 →
      s.insert_timeout_certificate env tc = (.ok (), s, []) ∧
      s.highest_timeout_cert = none) ∧
    (1 ≤ tc.round → env.save_highest_timeout_cert_ok = true →
      (s.insert_timeout_certificate env tc).1 = .ok () ∧
      Event.saveHighestTimeoutCert true tc.round ∈
        (s.insert_timeout_certificate env tc).2.2 ∧
      (s.insert_timeout_certificate env tc).2.1.highest_timeout_cert = some tc) := by
  constructor
  · intro h0
    refine ⟨?_, hnone⟩
    unfold BlockStore.insert_timeout_certificate
    have : tc.round ≤ (s.highest_timeout_cert.map TimeoutCertificate.round).getD 0 := by
      rw [hnone]; simp [h0]
    rw [if_pos this]
  · intro h1 henv
    have hnot : ¬ tc.round ≤ (s.highest_timeout_cert.map TimeoutCertificate.round).getD 0 := by
      rw [hnone]; simp; omega
    unfold BlockStore.insert_timeout_certificate
    rw [if_neg hnot, henv]
    simp only [if_pos rfl]
    refine ⟨rfl, by simp, ?_⟩
    show (s.inner.replace_timeout_cert tc).highest_timeout_cert = some tc
    unfold BlockTree.replace_timeout_cert
    unfold BlockStore.highest_timeout_cert at hnone
    rw [hnone]

/-- Witness for the initial timeout-certificate behaviour: in the concrete
store with no TC, a round-0 TC is a silent no-op and a round-1 TC is stored. -/
theorem insert_timeout_certificate_initial_witness :
    (store0.insert_timeout_certificate envOK { round := 0 } = (.ok (), store0, []) ∧
      store0.highest_timeout_cert = none) ∧
    ((store0.insert_timeout_certificate envOK { round := 1 }).1 = .ok () ∧
      Event.saveHighestTimeoutCert true 1 ∈
        (store0.insert_timeout_certificate envOK { round := 1 }).2.2 ∧
      (store0.insert_timeout_certificate envOK { round := 1 }).2.1.highest_timeout_cert =
        some { round := 1 }) :=
  ⟨(insert_timeout_certificate_initial store0 envOK { round := 0 } rfl).1 rfl,
   (insert_timeout_certificate_initial store0 envOK { round := 1 } rfl).2 (by decide) rfl⟩

/- ------------------------------------------------------------------ -/
/- Claim C6: idempotence of execute_and_insert_block.                  -/
/- ------------------------------------------------------------------ -/

/-- C6: execute_and_insert_block is idempotent: on a duplicate id it returns
the previously stored handle with no storage write, no state-computer call
and an unchanged tree, so inserting the same block twice yields the same
handle and exactly one save_tree write overall. -/
theorem execute_and_insert_idempotent (s : BlockStore) (sc : StateComputer)
    (env : StorageEnv) (b : Block) :
    (∀ eb, s.get_block b.id = some eb →
      s.execute_and_insert_block sc env b = (.ok eb, s, [])) ∧
    (∀ eb, s.get_block b.id = none →
      (s.execute_and_insert_block sc env b).1 = .ok eb →
      ((s.execute_and_insert_block sc env b).2.2.countP Event.isSaveTree = 1 ∧
       (s.execute_and_insert_block sc env b).2.1.execute_and_insert_block sc env b =
         (.ok eb, (s.execute_and_insert_block sc env b).2.1, []))) := by
  constructor
  · intro eb h
    unfold BlockStore.execute_and_insert_block
    simp [h]
  · intro eb hdup hok
    obtain ⟨henv, hexe, hstore, htr⟩ := execute_and_insert_ok_elim hdup hok
    constructor
    · rw [htr, List.countP_append]
      have h0 : (s.execute_block sc b).2.countP Event.isSaveTree = 0 := by
        rcases execute_block_trace s sc b with h | h <;> rw [h] <;> rfl
      rw [h0]
      rfl
    · rw [hstore]
      have hget : (⟨{ s.inner with blocks := s.inner.blocks ++ [(b.id, eb)] }⟩ :
          BlockStore).get_block b.id = some eb := by
        show assocFind (s.inner.blocks ++ [(b.id, eb)]) b.id = some eb
        rw [assocFind_append_right hdup]
        simp [assocFind]
      unfold BlockStore.execute_and_insert_block
      simp [hget]

/-- Witness for idempotence: inserting the round-1 child into the one-block
store writes save_tree exactly once, and re-inserting it returns the same
handle with an empty trace and an unchanged store. -/
theorem execute_and_insert_idempotent_witness :
    (storeG.execute_and_insert_block sc0 envOK block1).2.2.countP Event.isSaveTree = 1 ∧
    (storeG.execute_and_insert_block sc0 envOK block1).2.1.execute_and_insert_block
        sc0 envOK block1 =
      (.ok eb1, (storeG.execute_and_insert_block sc0 envOK block1).2.1, []) :=
  (execute_and_insert_idempotent storeG sc0 envOK block1).2 eb1 rfl rfl

/- ------------------------------------------------------------------ -/
/- Claim C7: the insert_single_quorum_cert contract.                   -/
/- ------------------------------------------------------------------ -/

/-- C7: insert_single_quorum_cert fails, persisting nothing and leaving the
tree unchanged, exactly when the certified block is absent or the stored
block info differs from the certificate; otherwise the QC is persisted first
and then inserted into the tree. -/
theorem insert_single_quorum_cert_contract (s : BlockStore) (env : StorageEnv)
    (qc : QuorumCert) (henv : env.save_tree_ok = true) :
    ((∃ e, (s.insert_single_quorum_cert env qc).1 = .error e) ↔
      (s.get_block qc.certified_block.id = none ∨
       ∃ eb, s.get_block qc.certified_block.id = some eb ∧
         eb.block_info ≠ qc.certified_block)) ∧
    (∀ e, (s.insert_single_quorum_cert env qc).1 = .error e →
      (s.insert_single_quorum_cert env qc).2.1 = s ∧
      (s.insert_single_quorum_cert env qc).2.2 = []) ∧
    ((s.insert_single_quorum_cert env qc).1 = .ok () →
      (s.insert_single_quorum_cert env qc).2.2 =
        [Event.saveTree true [] [qc.certified_block.id],
         Event.treeInsertQC qc.certified_block.id] ∧
      (assocFind (s.insert_single_quorum_cert env qc).2.1.inner.qcs
        qc.certified_block.id).isSome = true) := by
  cases hb : s.get_block qc.certified_block.id with
  | none =>
    have hres : s.insert_single_quorum_cert env qc = (.error .qcMissingBlock, s, []) := by
      unfold BlockStore.insert_single_quorum_cert
      rw [hb]
    rw [hres]
    refine ⟨?_, ?_, ?_⟩
    · simp
    · intro e _
      exact ⟨rfl, rfl⟩
    · intro h
      exact absurd h (by simp)
  | some eb =>
    by_cases hne : eb.block_info ≠ qc.certified_block
    · have hres : s.insert_single_quorum_cert env qc =
          (.error .qcInconsistentBlockInfo, s, []) := by
        unfold BlockStore.insert_single_quorum_cert
        simp only [hb]
        rw [if_pos hne]
      rw [hres]
      refine ⟨?_, ?_, ?_⟩
      · simp [hne]
      · intro e _
        exact ⟨rfl, rfl⟩
      · intro h
        exact absurd h (by simp)
    · have heq : eb.block_info = qc.certified_block := not_not.mp hne
      have hb2 : s.inner.get_block qc.certified_block.id = some eb := hb
      have hex : ∃ t3, s.inner.insert_quorum_cert qc = .ok t3 := by
        unfold BlockTree.insert_quorum_cert
        rw [hb2]
        exact ⟨_, rfl⟩
      obtain ⟨t3, ht3⟩ := hex
      have hres : s.insert_single_quorum_cert env qc =
          (.ok (), ⟨t3⟩, [Event.saveTree true [] [qc.certified_block.id],
                          Event.treeInsertQC qc.certified_block.id]) := by
        unfold BlockStore.insert_single_quorum_cert
        simp only [hb]
        rw [if_neg hne, henv]
        simp only [if_true]
        rw [ht3]
      rw [hres]
      refine ⟨?_, ?_, ?_⟩
      · constructor
        · intro ⟨e, he⟩
          exact absurd he (by simp)
        · intro hcond
          rcases hcond with h | ⟨eb2, heb2, hne2⟩
          · exact absurd h (by simp)
          · simp only [Option.some.injEq] at heb2
            exact absurd (heb2 ▸ heq) hne2
      · intro e he
        exact absurd he (by simp)
      · intro _
        exact ⟨rfl, (insert_quorum_cert_records ht3).1⟩

/-- Witness for the quorum-certificate contract: inserting a consistent QC
for the round-1 child into the concrete store persists it and then inserts
it into the tree. -/
theorem insert_single_quorum_cert_contract_witness :
    (store0.insert_single_quorum_cert envOK qc1).2.2 =
      [Event.saveTree true [] [qc1.certified_block.id],
       Event.treeInsertQC qc1.certified_block.id] ∧
    (assocFind (store0.insert_single_quorum_cert envOK qc1).2.1.inner.qcs
      qc1.certified_block.id).isSome = true :=
  (insert_single_quorum_cert_contract store0 envOK qc1 rfl).2.2 rfl

/- ------------------------------------------------------------------ -/
/- Claim C2: persistence ordering and save_tree failure handling.      -/
/- ------------------------------------------------------------------ -/

/-- C2: whenever save_tree fails during execute_and_insert_block or during
insert_single_quorum_cert, the operation returns that error and the
in-memory tree is not mutated; in every successful run the save_tree call
completes before the corresponding in-memory insertion. -/
theorem save_tree_before_insert (s : BlockStore) (sc : StateComputer)
    (env : StorageEnv) (b : Block) (qc : QuorumCert) :
    (∀ ids qids, Event.saveTree false ids qids ∈ (s.execute_and_insert_block sc env b).2.2 →
      (s.execute_and_insert_block sc env b).1 = .error .saveTreeBlockFailed ∧
      (s.execute_and_insert_block sc env b).2.1 = s) ∧
    (∀ ids qids, Event.saveTree false ids qids ∈ (s.insert_single_quorum_cert env qc).2.2 →
      (s.insert_single_quorum_cert env qc).1 = .error .saveTreeQuorumFailed ∧
      (s.insert_single_quorum_cert env qc).2.1 = s) ∧
    (∀ eb, s.get_block b.id = none →
      (s.execute_and_insert_block sc env b).1 = .ok eb →
      [Event.saveTree true [b.id] [], Event.treeInsertBlock b.id].Sublist
        (s.execute_and_insert_block sc env b).2.2) ∧
    ((s.insert_single_quorum_cert env qc).1 = .ok () →
      (s.insert_single_quorum_cert env qc).2.2 =
        [Event.saveTree true [] [qc.certified_block.id],
         Event.treeInsertQC qc.certified_block.id]) := by
  refine ⟨?_, ?_, ?_, ?_⟩
  · intro ids qids hmem
    cases hdup : s.get_block b.id with
    | some eb =>
      have hres : s.execute_and_insert_block sc env b = (.ok eb, s, []) := by
        unfold BlockStore.execute_and_insert_block
        simp [hdup]
      rw [hres] at hmem
      exact absurd hmem (by simp)
    | none =>
      cases hx : s.execute_block sc b with
      | mk r tr =>
        have htr : tr = [] ∨ tr = [Event.computeCall b.id] := by
          have h := execute_block_trace s sc b
          rw [hx] at h
          exact h
        cases r with
        | error e =>
          have hres : s.execute_and_insert_block sc env b = (.error e, s, tr) := by
            unfold BlockStore.execute_and_insert_block
            simp only [hdup]
            rw [hx]
          rw [hres] at hmem
          rcases htr with h | h <;> rw [h] at hmem <;> exact absurd hmem (by simp)
        | ok eb0 =>
          cases henv : env.save_tree_ok with
          | false =>
            have hres : s.execute_and_insert_block sc env b =
                (.error .saveTreeBlockFailed, s,
                 tr ++ [Event.saveTree false [eb0.block.id] []]) := by
              unfold BlockStore.execute_and_insert_block
              simp only [hdup]
              rw [hx, henv]
              simp
            rw [hres]
            exact ⟨rfl, rfl⟩
          | true =>
            cases hins : s.inner.insert_block eb0 with
            | error e2 =>
              have hres : s.execute_and_insert_block sc env b =
                  (.error .treeInsertFailed, s,
                   tr ++ [Event.saveTree true [eb0.block.id] []]) := by
                unfold BlockStore.execute_and_insert_block
                simp only [hdup]
                rw [hx, henv]
                simp only [if_true]
                rw [hins]
              rw [hres] at hmem
              simp only [List.mem_append] at hmem
              rcases hmem with hmem | hmem
              · rcases htr with h | h <;> rw [h] at hmem <;> exact absurd hmem (by simp)
              · exact absurd hmem (by simp)
            | ok pr =>
              cases pr with
              | mk ret t2 =>
                have hres : s.execute_and_insert_block sc env b =
                    (.ok ret, ⟨t2⟩,
                     tr ++ [Event.saveTree true [eb0.block.id] [],
                            Event.treeInsertBlock eb0.block.id]) := by
                  unfold BlockStore.execute_and_insert_block
                  simp only [hdup]
                  rw [hx, henv]
                  simp only [if_true]
                  rw [hins]
                rw [hres] at hmem
                simp only [List.mem_append] at hmem
                rcases hmem with hmem | hmem
                · rcases htr with h | h <;> rw [h] at hmem <;> exact absurd hmem (by simp)
                · exact absurd hmem (by simp)
  · intro ids qids hmem
    cases hb : s.get_block qc.certified_block.id with
    | none =>
      have hres : s.insert_single_quorum_cert env qc = (.error .qcMissingBlock, s, []) := by
        unfold BlockStore.insert_single_quorum_cert
        rw [hb]
      rw [hres] at hmem
      exact absurd hmem (by simp)
    | some eb =>
      by_cases hne : eb.block_info ≠ qc.certified_block
      · have hres : s.insert_single_quorum_cert env qc =
            (.error .qcInconsistentBlockInfo, s, []) := by
          unfold BlockStore.insert_single_quorum_cert
          simp only [hb]
          rw [if_pos hne]
        rw [hres] at hmem
        exact absurd hmem (by simp)
      · have hb2 : s.inner.get_block qc.certified_block.id = some eb := hb
        have hex : ∃ t3, s.inner.insert_quorum_cert qc = .ok t3 := by
          unfold BlockTree.insert_quorum_cert
          rw [hb2]
          exact ⟨_, rfl⟩
        obtain ⟨t3, ht3⟩ := hex
        cases henv : env.save_tree_ok with
        | false =>
          have hres : s.insert_single_quorum_cert env qc =
              (.error .saveTreeQuorumFailed, s,
               [Event.saveTree false [] [qc.certified_block.id]]) := by
            unfold BlockStore.insert_single_quorum_cert
            simp only [hb]
            rw [if_neg hne, henv]
            simp
          rw [hres]
          exact ⟨rfl, rfl⟩
        | true =>
          have hres : s.insert_single_quorum_cert env qc =
              (.ok (), ⟨t3⟩, [Event.saveTree true [] [qc.certified_block.id],
                              Event.treeInsertQC qc.certified_block.id]) := by
            unfold BlockStore.insert_single_quorum_cert
            simp only [hb]
            rw [if_neg hne, henv]
            simp only [if_true]
            rw [ht3]
          rw [hres] at hmem
          exact absurd hmem (by simp)
  · intro eb hdup hok
    obtain ⟨henv, hexe, hstore, htr⟩ := execute_and_insert_ok_elim hdup hok
    rw [htr]
    exact List.sublist_append_right _ _
  · intro hok
    obtain ⟨henv, eb, t3, hb, heq, ht3, hres⟩ := insert_single_qc_ok_elim hok
    rw [hres]

/-- Witness for the persistence-ordering contract: a failing save_tree
aborts the block insertion and the QC insertion leaving the store unchanged,
and on a successful insertion the save precedes the in-memory insert. -/
theorem save_tree_before_insert_witness :
    ((storeG.execute_and_insert_block sc0 envFail block1).1 = .error .saveTreeBlockFailed ∧
     (storeG.execute_and_insert_block sc0 envFail block1).2.1 = storeG) ∧
    ((store0.insert_single_quorum_cert envFail qc1).1 = .error .saveTreeQuorumFailed ∧
     (store0.insert_single_quorum_cert envFail qc1).2.1 = store0) ∧
    [Event.saveTree true [block1.id] [], Event.treeInsertBlock block1.id].Sublist
      (storeG.execute_and_insert_block sc0 envOK block1).2.2 :=
  ⟨(save_tree_before_insert storeG sc0 envFail block1 qc1).1 [block1.id] [] (by decide),
   (save_tree_before_insert store0 sc0 envFail block1 qc1).2.1 []
     [qc1.certified_block.id] (by decide),
   (save_tree_before_insert storeG sc0 envOK block1 qc1).2.2.1 eb1 rfl rfl⟩

/- ------------------------------------------------------------------ -/
/- Claim C5: the reconfiguration suffix rule.                          -/
/- ------------------------------------------------------------------ -/

/-- C5: when the parent is present, distinct from the root, and its output
has a pending next validator set, execute_and_insert_block rejects any block
whose payload is non-empty, and on acceptance the output is synthesized as
(no transactions, parent executed trees, parent validator set) without
invoking the state computer. -/
theorem reconfiguration_suffix (s : BlockStore) (sc : StateComputer) (env : StorageEnv)
    (b : Block) (p : ExecutedBlock) (hdup : s.get_block b.id = none)
    (hp : s.get_block b.parent_id = some p) (hroot : s.root ≠ p)
    (hrc : p.compute_result.has_reconfiguration = true) :
    ((b.payload.filter fun q => !q.isEmpty).isSome = true →
      ∃ e, (s.execute_and_insert_block sc env b).1 = .error e) ∧
    (∀ eb, (s.execute_and_insert_block sc env b).1 = .ok eb →
      eb.output = { transaction_data := []
                    executed_trees := p.output.executed_trees
                    validators := p.output.validators } ∧
      ∀ e ∈ (s.execute_and_insert_block sc env b).2.2, e.isComputeCall = false) := by
  cases hv : s.verify_and_get_parent b with
  | error e0 =>
    have hexe : s.execute_block sc b = (.error e0, []) := by
      unfold BlockStore.execute_block
      rw [hv]
    have hres : s.execute_and_insert_block sc env b = (.error e0, s, []) := by
      unfold BlockStore.execute_and_insert_block
      simp only [hdup]
      rw [hexe]
    constructor
    · intro _
      exact ⟨e0, by rw [hres]⟩
    · intro eb hok
      rw [hres] at hok
      exact absurd hok (by simp)
  | ok p2 =>
    have hp2 : p2 = p := by
      have h := (verify_ok_elim hv).2.1
      rw [hp] at h
      simpa using h.symm
    subst hp2
    have hcond : s.root ≠ p2 ∧ p2.compute_result.has_reconfiguration = true := ⟨hroot, hrc⟩
    cases hpay : (b.payload.filter fun q => !q.isEmpty).isSome with
    | true =>
      have hexe : s.execute_block sc b = (.error .reconfigurationPayload, []) := by
        unfold BlockStore.execute_block
        simp only [hv]
        rw [if_pos hcond, if_pos hpay]
      have hres : s.execute_and_insert_block sc env b =
          (.error .reconfigurationPayload, s, []) := by
        unfold BlockStore.execute_and_insert_block
        simp only [hdup]
        rw [hexe]
      constructor
      · intro _
        exact ⟨.reconfigurationPayload, by rw [hres]⟩
      · intro eb hok
        rw [hres] at hok
        exact absurd hok (by simp)
    | false =>
      have hexe : s.execute_block sc b =
          (.ok (ExecutedBlock.mk b
            { transaction_data := []
              executed_trees := p2.output.executed_trees
              validators := p2.output.validators }), []) := by
        unfold BlockStore.execute_block
        simp only [hv]
        rw [if_pos hcond, if_neg (by simp [hpay])]
      constructor
      · intro hpay2
        exact absurd hpay2 (by simp [hpay])
      · intro eb hok
        obtain ⟨henv, hexe2, hstore, htrace⟩ := execute_and_insert_ok_elim hdup hok
        rw [hexe] at hexe2
        have heb : eb = ExecutedBlock.mk b
            { transaction_data := []
              executed_trees := p2.output.executed_trees
              validators := p2.output.validators } := by
          simpa using hexe2.symm
        constructor
        · rw [heb]
        · intro e he
          rw [htrace, hexe] at he
          simp only [List.nil_append, List.mem_cons, List.not_mem_nil, or_false] at he
          rcases he with rfl | rfl <;> rfl

/-- Witness for the reconfiguration suffix: the empty-payload child of the
reconfiguration block is accepted with the synthesized output and its trace
contains no state-computer call. -/
theorem reconfiguration_suffix_witness :
    (ExecutedBlock.mk blockEmptyChild
      { transaction_data := []
        executed_trees := ebR.output.executed_trees
        validators := ebR.output.validators }).output =
      { transaction_data := []
        executed_trees := ebR.output.executed_trees
        validators := ebR.output.validators } ∧
    ∀ e ∈ (storeR.execute_and_insert_block sc0 envOK blockEmptyChild).2.2,
      e.isComputeCall = false :=
  (reconfiguration_suffix storeR sc0 envOK blockEmptyChild ebR rfl rfl (by decide) rfl).2
    (ExecutedBlock.mk blockEmptyChild
      { transaction_data := []
        executed_trees := ebR.output.executed_trees
        validators := ebR.output.validators }) rfl

/- ------------------------------------------------------------------ -/
/- Claim C4: the error conditions of execute_and_insert_block.         -/
/- ------------------------------------------------------------------ -/

/-- C4 (amended): for a fresh block id with a successfully saving storage,
execute_and_insert_block returns an error, persisting nothing and leaving
the tree unchanged, exactly when the parent is absent, or the round is not
above the parent round, or the timestamp is not above the parent timestamp,
or the round is not above the root round, or the non-root parent has a
pending reconfiguration and the payload is non-empty; when instead the state
computer fails on the execution path, the execution error is surfaced
without persisting. -/
theorem execute_and_insert_error_iff (s : BlockStore) (sc : StateComputer)
    (env : StorageEnv) (b : Block) (hdup : s.get_block b.id = none)
    (henv : env.save_tree_ok = true) :
    ((∃ e, (s.execute_and_insert_block sc env b).1 = .error e) ↔
      (b.round ≤ s.root.block.round ∨ s.get_block b.parent_id = none ∨
       ∃ p, s.get_block b.parent_id = some p ∧
         (b.round ≤ p.block.round ∨ b.timestamp_usecs ≤ p.block.timestamp_usecs ∨
          (s.root ≠ p ∧ p.compute_result.has_reconfiguration = true ∧
            (b.payload.filter fun q => !q.isEmpty).isSome = true) ∨
          (¬(s.root ≠ p ∧ p.compute_result.has_reconfiguration = true) ∧
            sc.compute b p.executed_trees = none)))) ∧
    (∀ e, (s.execute_and_insert_block sc env b).1 = .error e →
      (s.execute_and_insert_block sc env b).2.1 = s ∧
      ∀ ok ids qids, Event.saveTree ok ids qids ∉
        (s.execute_and_insert_block sc env b).2.2) ∧
    (∀ p, s.get_block b.parent_id = some p →
      ¬ b.round ≤ s.root.block.round → ¬ b.round ≤ p.block.round →
      ¬ b.timestamp_usecs ≤ p.block.timestamp_usecs →
      ¬(s.root ≠ p ∧ p.compute_result.has_reconfiguration = true) →
      sc.compute b p.executed_trees = none →
      (s.execute_and_insert_block sc env b).1 = .error .executionError) := by
  by_cases h1 : b.round ≤ s.root.block.round
  · have hv : s.verify_and_get_parent b = .error .oldRound := by
      unfold BlockStore.verify_and_get_parent
      rw [if_pos h1]
    have hexe : s.execute_block sc b = (.error .oldRound, []) := by
      unfold BlockStore.execute_block
      rw [hv]
    have hres : s.execute_and_insert_block sc env b = (.error .oldRound, s, []) := by
      unfold BlockStore.execute_and_insert_block
      simp only [hdup]
      rw [hexe]
    refine ⟨⟨fun _ => Or.inl h1, fun _ => ⟨.oldRound, by rw [hres]⟩⟩, ?_, ?_⟩
    · intro e _
      rw [hres]
      exact ⟨rfl, fun ok ids qids hc => by simp at hc⟩
    · intro p _ hno1 _ _ _ _
      exact absurd h1 hno1
  · cases hp : s.get_block b.parent_id with
    | none =>
      have hv : s.verify_and_get_parent b = .error .missingParent := by
        unfold BlockStore.verify_and_get_parent
        rw [if_neg h1]
        simp only [hp]
      have hexe : s.execute_block sc b = (.error .missingParent, []) := by
        unfold BlockStore.execute_block
        rw [hv]
      have hres : s.execute_and_insert_block sc env b = (.error .missingParent, s, []) := by
        unfold BlockStore.execute_and_insert_block
        simp only [hdup]
        rw [hexe]
      refine ⟨⟨fun _ => Or.inr (Or.inl rfl), fun _ => ⟨.missingParent, by rw [hres]⟩⟩, ?_, ?_⟩
      · intro e _
        rw [hres]
        exact ⟨rfl, fun ok ids qids hc => by simp at hc⟩
      · intro p hp2 _ _ _ _ _
        exact absurd hp2 (by simp)
    | some p =>
      by_cases h2 : b.round ≤ p.block.round
      · have hv : s.verify_and_get_parent b = .error .invalidRound := by
          unfold BlockStore.verify_and_get_parent
          rw [if_neg h1]
          simp only [hp]
          rw [if_pos h2]
        have hexe : s.execute_block sc b = (.error .invalidRound, []) := by
          unfold BlockStore.execute_block
          rw [hv]
        have hres : s.execute_and_insert_block sc env b =
            (.error .invalidRound, s, []) := by
          unfold BlockStore.execute_and_insert_block
          simp only [hdup]
          rw [hexe]
        refine ⟨⟨fun _ => Or.inr (Or.inr ⟨p, rfl, Or.inl h2⟩),
                 fun _ => ⟨.invalidRound, by rw [hres]⟩⟩, ?_, ?_⟩
        · intro e _
          rw [hres]
          exact ⟨rfl, fun ok ids qids hc => by simp at hc⟩
        · intro p2 hp2 _ hno2 _ _ _
          have hpp : p2 = p := by simpa using hp2.symm
          subst hpp
          exact absurd h2 hno2
      · by_cases h3 : b.timestamp_usecs ≤ p.block.timestamp_usecs
        · have hv : s.verify_and_get_parent b = .error .nonIncreasingTimestamp := by
            unfold BlockStore.verify_and_get_parent
            rw [if_neg h1]
            simp only [hp]
            rw [if_neg h2, if_pos h3]
          have hexe : s.execute_block sc b = (.error .nonIncreasingTimestamp, []) := by
            unfold BlockStore.execute_block
            rw [hv]
          have hres : s.execute_and_insert_block sc env b =
              (.error .nonIncreasingTimestamp, s, []) := by
            unfold BlockStore.execute_and_insert_block
            simp only [hdup]
            rw [hexe]
          refine ⟨⟨fun _ => Or.inr (Or.inr ⟨p, rfl, Or.inr (Or.inl h3)⟩),
                   fun _ => ⟨.nonIncreasingTimestamp, by rw [hres]⟩⟩, ?_, ?_⟩
          · intro e _
            rw [hres]
            exact ⟨rfl, fun ok ids qids hc => by simp at hc⟩
          · intro p2 hp2 _ _ hno3 _ _
            have hpp : p2 = p := by simpa using hp2.symm
            subst hpp
            exact absurd h3 hno3
        · have hv : s.verify_and_get_parent b = .ok p := by
            unfold BlockStore.verify_and_get_parent
            rw [if_neg h1]
            simp only [hp]
            rw [if_neg h2, if_neg h3]
          by_cases h4 : s.root ≠ p ∧ p.compute_result.has_reconfiguration = true
          · cases hpay : (b.payload.filter fun q => !q.isEmpty).isSome with
            | true =>
              have hexe : s.execute_block sc b = (.error .reconfigurationPayload, []) := by
                unfold BlockStore.execute_block
                simp only [hv]
                rw [if_pos h4, if_pos hpay]
              have hres : s.execute_and_insert_block sc env b =
                  (.error .reconfigurationPayload, s, []) := by
                unfold BlockStore.execute_and_insert_block
                simp only [hdup]
                rw [hexe]
              refine ⟨⟨fun _ => Or.inr (Or.inr ⟨p, rfl,
                        Or.inr (Or.inr (Or.inl ⟨h4.1, h4.2, rfl⟩))⟩),
                       fun _ => ⟨.reconfigurationPayload, by rw [hres]⟩⟩, ?_, ?_⟩
              · intro e _
                rw [hres]
                exact ⟨rfl, fun ok ids qids hc => by simp at hc⟩
              · intro p2 hp2 _ _ _ hno4 _
                have hpp : p2 = p := by simpa using hp2.symm
                subst hpp
                exact absurd h4 hno4
            | false =>
              have hexe : s.execute_block sc b =
                  (.ok (ExecutedBlock.mk b
                    { transaction_data := []
                      executed_trees := p.output.executed_trees
                      validators := p.output.validators }), []) := by
                unfold BlockStore.execute_block
                simp only [hv]
                rw [if_pos h4, if_neg (by simp [hpay])]
              have hins : s.inner.insert_block (ExecutedBlock.mk b
                  { transaction_data := []
                    executed_trees := p.output.executed_trees
                    validators := p.output.validators }) =
                  .ok (ExecutedBlock.mk b
                    { transaction_data := []
                      executed_trees := p.output.executed_trees
                      validators := p.output.validators },
                    { s.inner with blocks := s.inner.blocks ++
                      [(b.id, ExecutedBlock.mk b
                        { transaction_data := []
                          executed_trees := p.output.executed_trees
                          validators := p.output.validators })] }) := by
                unfold BlockTree.insert_block
                have ha : s.inner.get_block (ExecutedBlock.mk b
                    { transaction_data := []
                      executed_trees := p.output.executed_trees
                      validators := p.output.validators }).block.id = none := hdup
                have hbp : s.inner.get_block (ExecutedBlock.mk b
                    { transaction_data := []
                      executed_trees := p.output.executed_trees
                      validators := p.output.validators }).block.parent_id = some p := hp
                rw [ha, hbp]
              have hres : (s.execute_and_insert_block sc env b).1 =
                  .ok (ExecutedBlock.mk b
                    { transaction_data := []
                      executed_trees := p.output.executed_trees
                      validators := p.output.validators }) := by
                unfold BlockStore.execute_and_insert_block
                simp only [hdup]
                rw [hexe, henv]
                simp only [if_true]
                rw [hins]
              refine ⟨?_, ?_, ?_⟩
              · constructor
                · intro ⟨e, he⟩
                  rw [hres] at he
                  simp at he
                · intro hcond
                  exfalso
                  rcases hcond with hcl | hcl | ⟨p2, hp2, hcl⟩
                  · exact h1 hcl
                  · simp at hcl
                  · have hpp : p2 = p := by simpa using hp2.symm
                    subst hpp
                    rcases hcl with hcl | hcl | hcl | hcl
                    · exact h2 hcl
                    · exact h3 hcl
                    · exact absurd hcl.2.2 (by simp)
                    · exact hcl.1 h4
              · intro e he
                rw [hres] at he
                simp at he
              · intro p2 hp2 _ _ _ hno4 _
                have hpp : p2 = p := by simpa using hp2.symm
                subst hpp
                exact absurd h4 hno4
          · cases hc : sc.compute b p.executed_trees with
            | none =>
              have hexe : s.execute_block sc b =
                  (.error .executionError, [Event.computeCall b.id]) := by
                unfold BlockStore.execute_block
                simp only [hv]
                rw [if_neg h4]
                simp only [hc]
              have hres : s.execute_and_insert_block sc env b =
                  (.error .executionError, s, [Event.computeCall b.id]) := by
                unfold BlockStore.execute_and_insert_block
                simp only [hdup]
                rw [hexe]
              refine ⟨⟨fun _ => Or.inr (Or.inr ⟨p, rfl,
                        Or.inr (Or.inr (Or.inr ⟨h4, hc⟩))⟩),
                       fun _ => ⟨.executionError, by rw [hres]⟩⟩, ?_, ?_⟩
              · intro e _
                rw [hres]
                exact ⟨rfl, fun ok ids qids hc2 => by simp at hc2⟩
              · intro p2 hp2 _ _ _ _ _
                have hpp : p2 = p := by simpa using hp2.symm
                subst hpp
                rw [hres]
            | some out =>
              have hexe : s.execute_block sc b =
                  (.ok (ExecutedBlock.mk b out), [Event.computeCall b.id]) := by
                unfold BlockStore.execute_block
                simp only [hv]
                rw [if_neg h4]
                simp only [hc]
              have hins : s.inner.insert_block (ExecutedBlock.mk b out) =
                  .ok (ExecutedBlock.mk b out,
                    { s.inner with blocks := s.inner.blocks ++
                      [(b.id, ExecutedBlock.mk b out)] }) := by
                unfold BlockTree.insert_block
                have ha : s.inner.get_block (ExecutedBlock.mk b out).block.id = none := hdup
                have hbp : s.inner.get_block (ExecutedBlock.mk b out).block.parent_id =
                    some p := hp
                rw [ha, hbp]
              have hres : (s.execute_and_insert_block sc env b).1 =
                  .ok (ExecutedBlock.mk b out) := by
                unfold BlockStore.execute_and_insert_block
                simp only [hdup]
                rw [hexe, henv]
                simp only [if_true]
                rw [hins]
              refine ⟨?_, ?_, ?_⟩
              · constructor
                · intro ⟨e, he⟩
                  rw [hres] at he
                  simp at he
                · intro hcond
                  exfalso
                  rcases hcond with hcl | hcl | ⟨p2, hp2, hcl⟩
                  · exact h1 hcl
                  · simp at hcl
                  · have hpp : p2 = p := by simpa using hp2.symm
                    subst hpp
                    rcases hcl with hcl | hcl | hcl | hcl
                    · exact h2 hcl
                    · exact h3 hcl
                    · exact h4 ⟨hcl.1, hcl.2.1⟩
                    · rw [hc] at hcl
                      simp at hcl
              · intro e he
                rw [hres] at he
                simp at he
              · intro p2 hp2 _ _ _ _ hcnone
                have hpp : p2 = p := by simpa using hp2.symm
                subst hpp
                rw [hc] at hcnone
                simp at hcnone

/-- Counterexample to C4 as stated: the non-empty-payload child of a
pending-reconfiguration parent is rejected by execute_and_insert_block even
though none of the error conditions listed by the claim holds (parent
present, rounds and timestamp strictly increasing, state computer
succeeding). -/
theorem execute_and_insert_error_iff_cex :
    (∃ e, (storeR.execute_and_insert_block sc0 envOK blockBadPayload).1 = .error e) ∧
    ¬(blockBadPayload.round ≤ storeR.root.block.round) ∧
    storeR.get_block blockBadPayload.parent_id = some ebR ∧
    ¬(blockBadPayload.round ≤ ebR.block.round) ∧
    ¬(blockBadPayload.timestamp_usecs ≤ ebR.block.timestamp_usecs) ∧
    sc0.compute blockBadPayload ebR.executed_trees ≠ none :=
  ⟨⟨.reconfigurationPayload, rfl⟩, by decide, rfl, by decide, by decide, by decide⟩

/-- Witness for the amended error contract: a block with an unknown parent
is rejected by execute_and_insert_block in the concrete store. -/
theorem execute_and_insert_error_iff_witness :
    ∃ e, (storeG.execute_and_insert_block sc0 envOK blockOrphan).1 = .error e :=
  (execute_and_insert_error_iff storeG sc0 envOK blockOrphan rfl rfl).1.mpr
    (Or.inr (Or.inl rfl))

/- ------------------------------------------------------------------ -/
/- Helper lemmas for build_block_tree and rebuild.                     -/
/- ------------------------------------------------------------------ -/

theorem insert_block_ok_elim {t : BlockTree} {eb r : ExecutedBlock} {t2 : BlockTree}
    (h : t.insert_block eb = .ok (r, t2)) :
    (∀ k v, t.get_block k = some v → t2.get_block k = some v) ∧
    t2.highest_timeout_cert = t.highest_timeout_cert ∧
    (t.WF → t2.WF) := by
  unfold BlockTree.insert_block at h
  split at h
  · simp only [Except.ok.injEq, Prod.mk.injEq] at h
    obtain ⟨h1, h2⟩ := h
    subst h2
    exact ⟨fun k v hv => hv, rfl, id⟩
  · split at h
    · exact absurd h (by simp)
    · simp only [Except.ok.injEq, Prod.mk.injEq] at h
      obtain ⟨h1, h2⟩ := h
      subst h2
      refine ⟨?_, rfl, ?_⟩
      · intro k v hv
        exact assocFind_append_left hv
      · intro hwf p hp
        simp only [List.mem_append, List.mem_singleton] at hp
        rcases hp with hp | hp
        · exact hwf p hp
        · subst hp
          rfl

theorem buildLoop_preserves {sc : StateComputer} {qi : List (HashValue × QuorumCert)} :
    ∀ {bs : List Block} {t t2 : BlockTree}, buildLoop sc qi t bs = .ok t2 →
    (∀ k v, t.get_block k = some v → t2.get_block k = some v) ∧
    t2.highest_timeout_cert = t.highest_timeout_cert ∧
    (t.WF → t2.WF) := by
  intro bs
  induction bs with
  | nil =>
    intro t t2 h
    simp only [buildLoop, Except.ok.injEq] at h
    subst h
    exact ⟨fun k v hv => hv, rfl, id⟩
  | cons b rest ih =>
    intro t t2 h
    unfold buildLoop at h
    split at h
    · exact absurd h (by simp)
    · split at h
      · exact absurd h (by simp)
      next parent hpar =>
        split at h
        · exact absurd h (by simp)
        next out hout =>
          split at h
          next qc hqc =>
            split at h
            · exact absurd h (by simp)
            · split at h
              · exact absurd h (by simp)
              next r t3 hins =>
                obtain ⟨hm1, htc1, hwf1⟩ := insert_block_ok_elim hins
                obtain ⟨hm2, htc2, hwf2⟩ := ih h
                exact ⟨fun k v hv => hm2 k v (hm1 k v hv), htc2.trans htc1,
                       fun hw => hwf2 (hwf1 hw)⟩
          next hqc =>
            split at h
            · exact absurd h (by simp)
            next r t3 hins =>
              obtain ⟨hm1, htc1, hwf1⟩ := insert_block_ok_elim hins
              obtain ⟨hm2, htc2, hwf2⟩ := ih h
              exact ⟨fun k v hv => hm2 k v (hm1 k v hv), htc2.trans htc1,
                     fun hw => hwf2 (hwf1 hw)⟩

theorem buildLoop_qc_agree {sc : StateComputer} {qi : List (HashValue × QuorumCert)} :
    ∀ {bs : List Block} {t t2 : BlockTree}, buildLoop sc qi t bs = .ok t2 →
    ∀ b ∈ bs, ∀ qc, assocFind qi b.id = some qc →
      ∃ p out, t2.get_block b.parent_id = some p ∧
        sc.compute b p.executed_trees = some out ∧
        qc.certified_block.executed_state_id = out.accu_root := by
  intro bs
  induction bs with
  | nil =>
    intro t t2 _ b hb
    exact absurd hb (by simp)
  | cons b0 rest ih =>
    intro t t2 h b hb qc hqc
    unfold buildLoop at h
    split at h
    · exact absurd h (by simp)
    · split at h
      · exact absurd h (by simp)
      next parent hpar =>
        split at h
        · exact absurd h (by simp)
        next out hout =>
          rcases List.mem_cons.mp hb with rfl | hbrest
          · split at h
            next qc0 hqc0 =>
              split at h
              · exact absurd h (by simp)
              next hdiv =>
                split at h
                · exact absurd h (by simp)
                next r t3 hins =>
                  have hqcq : qc0 = qc := by
                    rw [hqc0] at hqc
                    simpa using hqc
                  subst hqcq
                  obtain ⟨hm1, _, _⟩ := insert_block_ok_elim hins
                  obtain ⟨hm2, _, _⟩ := buildLoop_preserves h
                  exact ⟨parent, out, hm2 _ _ (hm1 _ _ hpar), hout, not_not.mp hdiv⟩
            next hqc0 =>
              rw [hqc0] at hqc
              exact absurd hqc (by simp)
          · split at h
            next qc0 hqc0 =>
              split at h
              · exact absurd h (by simp)
              · split at h
                · exact absurd h (by simp)
                next r t3 hins =>
                  exact ih h b hbrest qc hqc
            next hqc0 =>
              split at h
              · exact absurd h (by simp)
              next r t3 hins =>
                exact ih h b hbrest qc hqc

theorem insertQCs_state : ∀ {qcs : List QuorumCert} {t t2 : BlockTree},
    insertQCs t qcs = .ok t2 →
    t2.blocks = t.blocks ∧ t2.highest_timeout_cert = t.highest_timeout_cert := by
  intro qcs
  induction qcs with
  | nil =>
    intro t t2 h
    simp only [insertQCs, Except.ok.injEq] at h
    subst h
    exact ⟨rfl, rfl⟩
  | cons qc rest ih =>
    intro t t2 h
    unfold insertQCs at h
    split at h
    · exact absurd h (by simp)
    next t3 ht3 =>
      obtain ⟨_, hbq, htcq⟩ := insert_quorum_cert_records ht3
      obtain ⟨hb2, htc2⟩ := ih h
      exact ⟨hb2.trans hbq, htc2.trans htcq⟩

theorem build_block_tree_ok_elim {sc : StateComputer}
    {root : Block × QuorumCert × QuorumCert} {blocks : List Block}
    {quorum_certs : List QuorumCert} {htc : Option TimeoutCertificate}
    {maxp : Nat} {t : BlockTree}
    (h : build_block_tree sc root blocks quorum_certs htc maxp = .ok t) :
    root.2.1.certified_block.version = sc.committed_trees.version.getD 0 ∧
    root.2.1.certified_block.executed_state_id = sc.committed_trees.state_id ∧
    t.highest_timeout_cert = htc ∧ t.WF ∧
    ∃ t1, buildLoop sc (qcIndex quorum_certs)
        (BlockTree.new (ExecutedBlock.mk root.1
          { transaction_data := []
            executed_trees := sc.committed_trees
            validators := root.2.1.certified_block.next_validator_set })
          root.2.1 root.2.2 maxp htc) blocks = .ok t1 ∧
      t.blocks = t1.blocks := by
  unfold build_block_tree at h
  split at h
  · exact absurd h (by simp)
  next hver =>
    split at h
    · exact absurd h (by simp)
    next hsid =>
      simp only [] at h
      split at h
      · exact absurd h (by simp)
      next t1 hbl =>
        have hnewwf : (BlockTree.new (ExecutedBlock.mk root.1
            { transaction_data := []
              executed_trees := sc.committed_trees
              validators := root.2.1.certified_block.next_validator_set })
            root.2.1 root.2.2 maxp htc).WF := by
          intro p hp
          simp only [BlockTree.new, List.mem_singleton] at hp
          subst hp
          rfl
        obtain ⟨hm, htc1, hwf1⟩ := buildLoop_preserves hbl
        obtain ⟨hb2, htc2⟩ := insertQCs_state h
        refine ⟨not_not.mp hver, not_not.mp hsid, ?_, ?_, t1, hbl, hb2⟩
        · rw [htc2, htc1]
          rfl
        · intro p hp
          rw [hb2] at hp
          exact hwf1 hnewwf p hp

theorem commit_preserves (s : BlockStore) (fp : LedgerInfoWithSignatures) :
    (s.commit fp).2.1.inner.highest_ledger_info = s.inner.highest_ledger_info ∧
    (s.commit fp).2.1.inner.highest_timeout_cert = s.inner.highest_timeout_cert := by
  unfold BlockStore.commit
  split
  · exact ⟨rfl, rfl⟩
  · split
    · exact ⟨rfl, rfl⟩
    · exact ⟨rfl, rfl⟩

/- ------------------------------------------------------------------ -/
/- Claim C8: the startup and rebuild assertions.                       -/
/- ------------------------------------------------------------------ -/

/-- C8: build_block_tree completes without a fatal abort only when the root
QC agrees with the state computer committed trees on version and state id
and, for every orphan block with a matching orphan QC, the QC certified
executed state id equals the accumulator root of the freshly re-executed
output (computed against the parent trees recorded in the resulting tree);
a mismatch is a fatal abort, not an error return. -/
theorem build_block_tree_asserts (sc : StateComputer)
    (root : Block × QuorumCert × QuorumCert) (blocks : List Block)
    (quorum_certs : List QuorumCert) (htc : Option TimeoutCertificate)
    (maxp : Nat) (t : BlockTree)
    (h : build_block_tree sc root blocks quorum_certs htc maxp = .ok t) :
    root.2.1.certified_block.version = sc.committed_trees.version.getD 0 ∧
    root.2.1.certified_block.executed_state_id = sc.committed_trees.state_id ∧
    ∀ b ∈ blocks, ∀ qc, assocFind (qcIndex quorum_certs) b.id = some qc →
      ∃ p out, t.get_block b.parent_id = some p ∧
        sc.compute b p.executed_trees = some out ∧
        qc.certified_block.executed_state_id = out.accu_root := by
  obtain ⟨hver, hsid, _, _, t1, hbl, hb⟩ := build_block_tree_ok_elim h
  refine ⟨hver, hsid, ?_⟩
  intro b hbmem qc hqc
  obtain ⟨p, out, hp, hout, heq⟩ := buildLoop_qc_agree hbl b hbmem qc hqc
  refine ⟨p, out, ?_, hout, heq⟩
  show assocFind t.blocks b.parent_id = some p
  rw [hb]
  exact hp

/-- Witness for the startup assertions: the concrete recovery data with a
round-5 root, one orphan block and its matching orphan QC rebuilds
successfully, so the root agreement and the per-block certified-state
agreement hold there. -/
theorem build_block_tree_asserts_witness :
    (rootBlock5, rootQC5, rootLI3).2.1.certified_block.version =
      sc0.committed_trees.version.getD 0 ∧
    (rootBlock5, rootQC5, rootLI3).2.1.certified_block.executed_state_id =
      sc0.committed_trees.state_id ∧
    ∀ b ∈ [block60], ∀ qc, assocFind (qcIndex [qc60]) b.id = some qc →
      ∃ p out, tree8.get_block b.parent_id = some p ∧
        sc0.compute b p.executed_trees = some out ∧
        qc.certified_block.executed_state_id = out.accu_root :=
  build_block_tree_asserts sc0 (rootBlock5, rootQC5, rootLI3) [block60] [qc60]
    none 10 tree8 rfl

/- ------------------------------------------------------------------ -/
/- Claim C3: the rebuild contract.                                     -/
/- ------------------------------------------------------------------ -/

/-- C3 (amended): when build_block_tree succeeds and the rebuilt highest
ledger info is consistent with the rebuilt tree (its commit round is at
least the new root round and, when strictly above, the block it names is
present with that round), rebuild returns a store whose highest ledger info
commit round equals the root round, preserves the prior highest timeout
certificate, and invokes commit with the rebuilt highest ledger info before
returning whenever the commit round strictly exceeds the new root round. -/
theorem rebuild_contract (s : BlockStore) (sc : StateComputer)
    (root : Block × QuorumCert × QuorumCert) (blocks : List Block)
    (quorum_certs : List QuorumCert) (tree : BlockTree)
    (hbuild : build_block_tree sc root blocks quorum_certs s.highest_timeout_cert
        s.inner.max_pruned_blocks_in_mem = .ok tree)
    (hge : tree.root.block.round ≤ tree.highest_ledger_info.commit_info.round)
    (hpresent : tree.root.block.round < tree.highest_ledger_info.commit_info.round →
      ∃ b, tree.get_block tree.highest_ledger_info.commit_info.id = some b ∧
        b.block.round = tree.highest_ledger_info.commit_info.round) :
    ∃ s2 tr, s.rebuild sc root blocks quorum_certs = .ok (s2, tr) ∧
      s2.highest_ledger_info.commit_info.round = s2.root.block.round ∧
      s2.highest_timeout_cert = s.highest_timeout_cert ∧
      (tree.root.block.round < tree.highest_ledger_info.commit_info.round →
        Event.commitCall tree.highest_ledger_info.ledger_info.ledger_info ∈ tr) := by
  obtain ⟨_, _, htc, hwf, _⟩ := build_block_tree_ok_elim hbuild
  unfold BlockStore.rebuild
  simp only [hbuild]
  by_cases hlt : tree.root.block.round < tree.highest_ledger_info.commit_info.round
  · have hlt2 : (⟨tree⟩ : BlockStore).root.block.round <
        (⟨tree⟩ : BlockStore).highest_ledger_info.commit_info.round := hlt
    rw [if_pos hlt2]
    obtain ⟨b, hb, hbr⟩ := hpresent hlt
    have hb2 : (⟨tree⟩ : BlockStore).get_block
        ((⟨tree⟩ : BlockStore).highest_ledger_info.ledger_info.ledger_info.consensus_block_id) =
        some b := hb
    have hr : (⟨tree⟩ : BlockStore).root.block.round < b.block.round := by
      show tree.root.block.round < b.block.round
      rw [hbr]
      exact hlt
    have hco := @commit_ok ⟨tree⟩
      ((⟨tree⟩ : BlockStore).highest_ledger_info.ledger_info) b hwf hb2 hr
    have hpres := commit_preserves (⟨tree⟩ : BlockStore)
      ((⟨tree⟩ : BlockStore).highest_ledger_info.ledger_info)
    refine ⟨_, _, rfl, ?_, ?_, ?_⟩
    · show ((⟨tree⟩ : BlockStore).commit
        (⟨tree⟩ : BlockStore).highest_ledger_info.ledger_info).2.1.inner.highest_ledger_info.commit_info.round =
        ((⟨tree⟩ : BlockStore).commit
          (⟨tree⟩ : BlockStore).highest_ledger_info.ledger_info).2.1.root.block.round
      rw [hpres.1, hco.2]
      show tree.highest_ledger_info.commit_info.round = b.block.round
      rw [hbr]
    · show ((⟨tree⟩ : BlockStore).commit
        (⟨tree⟩ : BlockStore).highest_ledger_info.ledger_info).2.1.inner.highest_timeout_cert =
        s.highest_timeout_cert
      rw [hpres.2]
      exact htc
    · intro _
      exact List.mem_cons_of_mem _ (List.mem_cons_self _ _)
  · have hlt2 : ¬ ((⟨tree⟩ : BlockStore).root.block.round <
        (⟨tree⟩ : BlockStore).highest_ledger_info.commit_info.round) := hlt
    rw [if_neg hlt2]
    refine ⟨⟨tree⟩, _, rfl, ?_, htc, ?_⟩
    · show tree.highest_ledger_info.commit_info.round = tree.root.block.round
      omega
    · intro hcon
      exact absurd hcon hlt

/-- Counterexample to C3 as stated: a rebuild whose root ledger info commits
a round-3 block while the new root is at round 5 returns with the highest
ledger info commit round (3) different from the root round (5), because the
catch-up commit is only attempted when the commit round is strictly above
the root. -/
theorem rebuild_contract_cex :
    ∃ s2 tr, store0.rebuild sc0 (rootBlock5, rootQC5, rootLI3) [] [] = .ok (s2, tr) ∧
      s2.highest_ledger_info.commit_info.round ≠ s2.root.block.round :=
  ⟨_, _, rfl, by decide⟩

/-- Witness for the amended rebuild contract: rebuilding onto the round-5
root with the round-6 orphan named by the root ledger info triggers the
catch-up commit, after which the commit round equals the root round, the
prior (absent) timeout certificate is preserved, and the commit invocation
is in the trace. -/
theorem rebuild_contract_witness :
    ∃ s2 tr, store0.rebuild sc0 (rootBlock5, rootQC5, rootLI6) [block60] [] = .ok (s2, tr) ∧
      s2.highest_ledger_info.commit_info.round = s2.root.block.round ∧
      s2.highest_timeout_cert = store0.highest_timeout_cert ∧
      (treeW.root.block.round < treeW.highest_ledger_info.commit_info.round →
        Event.commitCall treeW.highest_ledger_info.ledger_info.ledger_info ∈ tr) :=
  rebuild_contract store0 sc0 (rootBlock5, rootQC5, rootLI6) [block60] [] treeW rfl
    (by decide) (fun _ => ⟨eb60, rfl, rfl⟩)

end LibraBlockStore
